import Mathlib

/-!
Verification development for the `zerostyl-verifier` crate (no-std Halo2 IPA
verifier).  We shallowly embed `verifier_nostd.rs` and `vk_components.rs`:

* field elements of the Pasta scalar field `Fp` (Pallas base field) and of the
  Vesta base field `Fq` are naturals reduced modulo the respective primes;
* Vesta curve points (`EqAffine` / `Eq` in the source) are an inductive with an
  identity and affine coordinates;
* the Blake2b-512 Fiat-Shamir state is abstracted as a `HashSpec`: the
  verifier is parametric in the hash, exactly mirroring the fact that the
  source only ever feeds bytes to the hasher and reduces wide digests into
  `Fp`.  Theorems that depend on concrete challenge values instantiate the
  abstract hash; all settled claims are decided by control flow that is
  independent of the squeezed values;
* the embedded `VK_BYTES` / `PARAMS_BYTES` blobs are produced by the build
  script and are not part of the sources, so the decoded `VkComponents` and
  `Params` records are passed as explicit arguments (the source decodes them
  with `load_vk` / `load_params` before use);
* Rust `Vec` indexing (which panics when out of bounds) is modelled by `idxP`,
  returning a distinguished `VError.crash` error, so panic-freedom is a
  provable statement;
* we model the build with the `std` feature enabled, which is the branch where
  the instance-commitment and IPA code actually runs (the `no_std` branch
  returns early with feature errors).
-/

set_option maxRecDepth 1000000

set_option maxHeartbeats 2000000

namespace ZeroStyl

/-- Pallas base field modulus = Vesta scalar field modulus (`Fp` in halo2curves). -/
def pMod : Nat :=
  28948022309329048855892746252171976963363056481941560715954676764349967630337

/-- Vesta base field modulus (`Fq` in halo2curves, coordinates of `EqAffine`). -/
def qMod : Nat :=
  28948022309329048855892746252171976963363056481941647379679742748393362948097

theorem pMod_pos : 0 < pMod := by decide

theorem qMod_pos : 0 < qMod := by decide

/-- An element of the scalar field `Fp`: a canonical residue mod `pMod`. -/
structure Fp where
  val : Nat
  isLt : val < pMod

instance : DecidableEq Fp := fun a b =>
  if h : a.val = b.val then
    .isTrue (by cases a; cases b; cases h; rfl)
  else
    .isFalse (fun hh => h (congrArg Fp.val hh))

def Fp.ofNat (n : Nat) : Fp := ⟨n % pMod, Nat.mod_lt _ pMod_pos⟩

instance (n : Nat) : OfNat Fp n := ⟨Fp.ofNat n⟩

def Fp.add (a b : Fp) : Fp := Fp.ofNat (a.val + b.val)

def Fp.mul (a b : Fp) : Fp := Fp.ofNat (a.val * b.val)

def Fp.sub (a b : Fp) : Fp := Fp.ofNat (a.val + (pMod - b.val))

def Fp.neg (a : Fp) : Fp := Fp.ofNat (pMod - a.val)

instance : Add Fp := ⟨Fp.add⟩
instance : Mul Fp := ⟨Fp.mul⟩
instance : Sub Fp := ⟨Fp.sub⟩
instance : Neg Fp := ⟨Fp.neg⟩

def Fp.pow (a : Fp) : Nat → Fp
  | 0 => 1
  | n + 1 => a * Fp.pow a n

instance : Pow Fp Nat := ⟨Fp.pow⟩

/-- Modular exponentiation by squaring with explicit fuel (enough for the
255-bit exponents that occur). -/
def powModAux : Nat → Nat → Nat → Nat → Nat
  | 0, _, _, m => 1 % m
  | fuel + 1, b, e, m =>
    if e = 0 then 1 % m
    else
      let r := powModAux fuel ((b * b) % m) (e / 2) m
      if e % 2 = 1 then (r * b) % m else r

/-- Multiplicative inverse in `Fp` via Fermat (`x^(p-2)`); maps `0` to `0`
(the `Option` wrapper below reproduces the `CtOption` of `Field::invert`). -/
def Fp.inv (a : Fp) : Fp := Fp.ofNat (powModAux 300 (a.val) (pMod - 2) pMod)

/-- `Field::invert`: `none` exactly on zero (the source then uses
`unwrap_or(Fp::one())`). -/
def Fp.invert (a : Fp) : Option Fp := if a = 0 then none else some (Fp.inv a)

/-- An element of the Vesta base field `Fq` (point coordinates). -/
structure Fq where
  val : Nat
deriving DecidableEq

def Fq.ofNat (n : Nat) : Fq := ⟨n % qMod⟩

instance (n : Nat) : OfNat Fq n := ⟨Fq.ofNat n⟩

def Fq.add (a b : Fq) : Fq := Fq.ofNat (a.val + b.val)

def Fq.mul (a b : Fq) : Fq := Fq.ofNat (a.val * b.val)

def Fq.sub (a b : Fq) : Fq := Fq.ofNat (a.val + (qMod - b.val % qMod))

def Fq.neg (a : Fq) : Fq := Fq.ofNat (qMod - a.val % qMod)

instance : Add Fq := ⟨Fq.add⟩
instance : Mul Fq := ⟨Fq.mul⟩
instance : Sub Fq := ⟨Fq.sub⟩
instance : Neg Fq := ⟨Fq.neg⟩

def Fq.inv (a : Fq) : Fq := Fq.ofNat (powModAux 300 (a.val) (qMod - 2) qMod)

def Fq.div (a b : Fq) : Fq := a * Fq.inv b

/-- A point of the Vesta curve `y^2 = x^3 + 5` (`EqAffine` / `Eq`); the
identity is the point at infinity. -/
inductive Pt
  | ident
  | aff (x y : Fq)
deriving DecidableEq

/-- Affine addition with the usual case analysis (chord / tangent / inverse). -/
def Pt.add : Pt → Pt → Pt
  | .ident, p => p
  | p, .ident => p
  | .aff x1 y1, .aff x2 y2 =>
    if x1 = x2 then
      if y1 + y2 = 0 then .ident
      else
        let m := Fq.div (Fq.ofNat 3 * x1 * x1) (y1 + y1)
        let x3 := m * m - x1 - x2
        .aff x3 (m * (x1 - x3) - y1)
    else
      let m := Fq.div (y2 - y1) (x2 - x1)
      let x3 := m * m - x1 - x2
      .aff x3 (m * (x1 - x3) - y1)

/-- Double-and-add scalar multiplication (structural fuel, enough for
255-bit scalars). -/
def smulAux : Nat → Pt → Nat → Pt
  | 0, _, _ => .ident
  | fuel + 1, p, k =>
    if k = 0 then .ident
    else
      let half := smulAux fuel (p.add p) (k / 2)
      if k % 2 = 1 then half.add p else half

def Pt.smul (p : Pt) (k : Nat) : Pt := smulAux 300 p k

/-- Little-endian interpretation of a byte list. -/
def fromLE (l : List Nat) : Nat := l.foldr (fun b acc => b + 256 * acc) 0

/-- 32-byte little-endian encoding of a natural (as `to_repr` produces). -/
def toLE32 (n : Nat) : List Nat :=
  (List.range 32).map (fun i => (n >>> (8 * i)) % 256)

/-- `Fp::from_repr`: succeed exactly on canonical (< p) encodings. -/
def decodeScalar (chunk : List Nat) : Option Fp :=
  let v := fromLE chunk
  if h : v < pMod then some ⟨v, h⟩ else none

/-- The square root chosen by `EqAffine::from_bytes`: after `sqrt` the result
is conditionally negated so that the parity of `y` equals the sign bit of the
encoding; so the decoded root is determined by its parity alone.  (Never
evaluated in this development except through untaken branches.) -/
def sqrtWithParity (a : Fq) (ysign : Nat) : Option Fq :=
  match (List.range qMod).find? (fun n => (n * n) % qMod = a.val % qMod) with
  | none => none
  | some r =>
    if r = 0 then some ⟨0⟩
    else if r % 2 = ysign % 2 then some ⟨r⟩ else some ⟨(qMod - r) % qMod⟩

/-- `EqAffine::from_bytes` on a 32-byte chunk: sign bit is the top bit of the
last byte, the remaining 255 bits are the `x` coordinate (must be canonical);
all-zero bytes (with sign 0) decode to the identity. -/
def decodePoint (chunk : List Nat) : Option Pt :=
  let b31 := chunk.getD 31 0
  let ysign := b31 >>> 7
  let tmp := chunk.set 31 (b31 % 128)
  let xval := fromLE tmp
  if xval < qMod then
    if xval = 0 ∧ ysign = 0 then some .ident
    else
      match sqrtWithParity (Fq.ofNat ((xval * xval % qMod) * xval + 5)) ysign with
      | some y => some (.aff ⟨xval⟩ y)
      | none => none
  else none

/-- `EqAffine::to_bytes`: LE bytes of `x` with the parity of `y` in the top
bit of the last byte; identity encodes as 32 zero bytes. -/
def ptToBytes : Pt → List Nat
  | .ident => List.replicate 32 0
  | .aff x y =>
    let base := toLE32 x.val
    base.set 31 ((base.getD 31 0) + 128 * (y.val % 2))

/-- Verifier errors.  `err` carries the message of a source-level
`Err(Vec<u8>)`; `crash` marks a Rust panic (out-of-bounds `Vec` indexing),
which the source must never reach. -/
inductive VError
  | err (msg : String)
  | crash (msg : String)
deriving DecidableEq

/-- Rust `Vec` indexing `v[i]`: returns the element or panics. -/
def idxP (l : List α) (n : Nat) : Except VError α :=
  match l[n]? with
  | some a => .ok a
  | none => .error (.crash "index out of bounds")

/-- Abstraction of the `Blake2b512` hasher driven by the transcript.
`initSt` is the state after absorbing the `b"Halo2-Transcript"` tag,
`resetSt` the state after `finalize_reset` (a fresh hasher), and
`squeezeVal` the wide digest interpreted as a natural (reduced mod `p` by
`from_uniform_bytes`, applied at the use site). -/
structure HashSpec where
  St : Type
  initSt : St
  update : St → List Nat → St
  squeezeVal : St → Nat
  resetSt : St

/-- A concrete trivial instantiation used to evaluate closed statements. -/
def trivialHash : HashSpec :=
  { St := Unit, initSt := (), update := fun _ _ => (), squeezeVal := fun _ => 0,
    resetSt := () }

def challengeTag : Nat := 0
def pointTag : Nat := 1
def scalarTag : Nat := 2

/-- The `Transcript` struct of `verifier_nostd.rs`: a hasher state, the raw
proof bytes, and a read cursor. -/
structure Transcript (σ : Type) where
  hasher : σ
  proofData : List Nat
  position : Nat

def Transcript.new (H : HashSpec) (proofBytes : List Nat) : Transcript H.St :=
  { hasher := H.initSt, proofData := proofBytes, position := 0 }

def Transcript.absorb_point (H : HashSpec) (t : Transcript H.St) (p : Pt) :
    Transcript H.St :=
  { t with hasher := H.update (H.update t.hasher [pointTag]) (ptToBytes p) }

def Transcript.absorb_scalar (H : HashSpec) (t : Transcript H.St) (s : Fp) :
    Transcript H.St :=
  { t with hasher := H.update (H.update t.hasher [scalarTag]) (toLE32 s.val) }

def Transcript.squeeze_challenge (H : HashSpec) (t : Transcript H.St) :
    Fp × Transcript H.St :=
  let h := H.update t.hasher [challengeTag]
  (Fp.ofNat (H.squeezeVal h), { t with hasher := H.resetSt })

def Transcript.read_point (H : HashSpec) (t : Transcript H.St) :
    Except VError (Pt × Transcript H.St) :=
  if t.position + 32 > t.proofData.length then
    .error (.err "Insufficient proof data for point")
  else
    let chunk := (t.proofData.drop t.position).take 32
    match decodePoint chunk with
    | none => .error (.err "Invalid point encoding")
    | some p =>
      .ok (p, Transcript.absorb_point H { t with position := t.position + 32 } p)

def Transcript.read_scalar (H : HashSpec) (t : Transcript H.St) :
    Except VError (Fp × Transcript H.St) :=
  if t.position + 32 > t.proofData.length then
    .error (.err "Insufficient proof data for scalar")
  else
    let chunk := (t.proofData.drop t.position).take 32
    match decodeScalar chunk with
    | none => .error (.err "Invalid scalar encoding")
    | some s =>
      .ok (s, Transcript.absorb_scalar H { t with position := t.position + 32 } s)

/-- `VkComponents` (vk_components.rs); commitments are stored as raw byte
vectors, `omega` as a 32-byte scalar encoding, `permutation_columns` as
`(column_index, column_type)` with `0 = Advice, 1 = Instance, 2 = Fixed`. -/
structure VkComponents where
  k : Nat
  extended_k : Nat
  omega : List Nat
  num_fixed_columns : Nat
  num_advice_columns : Nat
  num_instance_columns : Nat
  num_selectors : Nat
  fixed_commitments : List (List Nat)
  permutation_commitments : List (List Nat)
  permutation_columns : List (Nat × Nat)

/-- `VkComponents::get_omega` (the caller maps its `&'static str` error into
a `Vec<u8>` message). -/
def VkComponents.get_omega (vk : VkComponents) : Except VError Fp :=
  if vk.omega.length ≠ 32 then .error (.err "Invalid omega length")
  else
    match decodeScalar vk.omega with
    | some w => .ok w
    | none => .error (.err "Failed to deserialize omega")

/-- The IPA opening proof. -/
structure IpaProof where
  s_poly_commitment : Pt
  eval_value : Fp
  rounds : List (Pt × Pt)
deriving DecidableEq

/-- The decoded `Proof` record. -/
structure Proof where
  advice_commitments : List Pt
  permutation_product_commitment : Pt
  quotient_commitment : List Pt
  advice_evals : List Fp
  fixed_evals : List Fp
  permutation_evals : List Fp
  permutation_product_eval : Fp
  permutation_product_next_eval : Fp
  ipa_proof : IpaProof
deriving DecidableEq

/-- The commitment parameters decoded from `PARAMS_BYTES`
(`Params::<EqAffine>::read`): the domain exponent and the reference string. -/
structure ParamsT where
  k : Nat
  g : List Pt

/-- The PLONK challenges. -/
structure Challenges where
  beta : Fp
  gamma : Fp
  theta : Fp
  zeta : Fp
  v : Fp
deriving DecidableEq

/-- `for _ in 0..n { read_point }`, collecting in read order. -/
def readPoints (H : HashSpec) :
    Nat → Transcript H.St → Except VError (List Pt × Transcript H.St)
  | 0, t => .ok ([], t)
  | n + 1, t => do
    let (p, t1) ← Transcript.read_point H t
    let (ps, t2) ← readPoints H n t1
    .ok (p :: ps, t2)

/-- `for _ in 0..n { read_scalar }`, collecting in read order. -/
def readScalars (H : HashSpec) :
    Nat → Transcript H.St → Except VError (List Fp × Transcript H.St)
  | 0, t => .ok ([], t)
  | n + 1, t => do
    let (s, t1) ← Transcript.read_scalar H t
    let (ss, t2) ← readScalars H n t1
    .ok (s :: ss, t2)

/-- `for _ in 0..k { read_point; read_point }`, collecting round pairs. -/
def readRounds (H : HashSpec) :
    Nat → Transcript H.St → Except VError (List (Pt × Pt) × Transcript H.St)
  | 0, t => .ok ([], t)
  | n + 1, t => do
    let (l, t1) ← Transcript.read_point H t
    let (r, t2) ← Transcript.read_point H t1
    let (rs, t3) ← readRounds H n t2
    .ok ((l, r) :: rs, t3)

/-- `parse_proof` (verifier_nostd.rs:199): reads the proof fields in the fixed
wire order, feeding the transcript as a side effect of every read. -/
def parse_proof (H : HashSpec) (proofBytes : List Nat) (vk : VkComponents) :
    Except VError (Proof × Transcript H.St) := do
  let t := Transcript.new H proofBytes
  let (advice_commitments, t) ← readPoints H vk.num_advice_columns t
  let (permutation_product_commitment, t) ← Transcript.read_point H t
  let num_quotient_parts := 3
  let (quotient_commitment, t) ← readPoints H num_quotient_parts t
  let (advice_evals, t) ← readScalars H vk.num_advice_columns t
  let (fixed_evals, t) ← readScalars H vk.num_fixed_columns t
  let (permutation_evals, t) ← readScalars H vk.permutation_columns.length t
  let (permutation_product_eval, t) ← Transcript.read_scalar H t
  let (permutation_product_next_eval, t) ← Transcript.read_scalar H t
  let (s_poly_commitment, t) ← Transcript.read_point H t
  let (eval_value, t) ← Transcript.read_scalar H t
  let (rounds, t) ← readRounds H vk.k t
  .ok ({ advice_commitments, permutation_product_commitment, quotient_commitment,
         advice_evals, fixed_evals, permutation_evals, permutation_product_eval,
         permutation_product_next_eval,
         ipa_proof := { s_poly_commitment, eval_value, rounds } }, t)

/-- `generate_challenges` (verifier_nostd.rs:167): the fixed absorb/squeeze
sequence; an explicit state-passing function of `(transcript, proof)`. -/
def generate_challenges (H : HashSpec) (t : Transcript H.St) (proof : Proof) :
    Challenges × Transcript H.St :=
  let t := proof.advice_commitments.foldl (Transcript.absorb_point H) t
  let (beta, t) := Transcript.squeeze_challenge H t
  let (gamma, t) := Transcript.squeeze_challenge H t
  let t := Transcript.absorb_point H t proof.permutation_product_commitment
  let (theta, t) := Transcript.squeeze_challenge H t
  let t := proof.quotient_commitment.foldl (Transcript.absorb_point H) t
  let (zeta, t) := Transcript.squeeze_challenge H t
  let t := proof.advice_evals.foldl (Transcript.absorb_scalar H) t
  let t := proof.fixed_evals.foldl (Transcript.absorb_scalar H) t
  let t := proof.permutation_evals.foldl (Transcript.absorb_scalar H) t
  let t := Transcript.absorb_scalar H t proof.permutation_product_eval
  let t := Transcript.absorb_scalar H t proof.permutation_product_next_eval
  let (v, t) := Transcript.squeeze_challenge H t
  ({ beta, gamma, theta, zeta, v }, t)

/-- Body of the first loop of `verify_permutation_argument`: threads
`(left_product, omega_power)`; the advice access is bounds-checked first,
then indexed (a Rust `Vec` index). -/
def permStepL (proof : Proof) (vk : VkComponents) (beta gamma zeta omega : Fp)
    (st : Fp × Fp) (i : Nat) : Except VError (Fp × Fp) := do
  let c ← idxP vk.permutation_columns i
  let witness_value ←
    if c.2 = 0 then
      if c.1 ≥ proof.advice_evals.length then
        Except.error (VError.err "Advice evaluation index out of bounds")
      else idxP proof.advice_evals c.1
    else if c.2 = 1 then Except.ok (0 : Fp)
    else Except.error (VError.err "Invalid permutation column type")
  Except.ok (st.1 * (witness_value + beta * zeta * st.2 + gamma), st.2 * omega)

/-- Body of the second loop of `verify_permutation_argument`: threads
`right_product`; the advice access here is an unguarded `Vec` index, the
permutation-eval access is length-checked first. -/
def permStepR (proof : Proof) (vk : VkComponents) (beta gamma : Fp)
    (rp : Fp) (i : Nat) : Except VError Fp := do
  let c ← idxP vk.permutation_columns i
  let witness_value ←
    if c.2 = 0 then idxP proof.advice_evals c.1
    else if c.2 = 1 then Except.ok (0 : Fp)
    else Except.error (VError.err "Invalid permutation column type")
  if i ≥ proof.permutation_evals.length then
    Except.error (VError.err "Permutation evaluation index out of bounds")
  else do
    let perm_eval ← idxP proof.permutation_evals i
    Except.ok (rp * (witness_value + beta * perm_eval + gamma))

/-- `verify_permutation_argument` (verifier_nostd.rs:442). -/
def verify_permutation_argument (proof : Proof) (vk : VkComponents)
    (challenges : Challenges) : Except VError Unit :=
  let expected_perm_cols := 4
  if vk.permutation_columns.length ≠ expected_perm_cols then
    Except.error (VError.err "Incorrect permutation column count")
  else do
    let omega ← vk.get_omega
    let beta := challenges.beta
    let gamma := challenges.gamma
    let zeta := challenges.zeta
    let (left_product, _) ←
      (List.range expected_perm_cols).foldlM
        (permStepL proof vk beta gamma zeta omega) ((1 : Fp), (1 : Fp))
    let right_product ←
      (List.range expected_perm_cols).foldlM (permStepR proof vk beta gamma) (1 : Fp)
    let z_eval := proof.permutation_product_eval
    let z_next_eval := proof.permutation_product_next_eval
    let lhs := z_next_eval * left_product
    let rhs := z_eval * right_product
    if lhs ≠ rhs then
      Except.error (VError.err "Permutation grand product check failed")
    else Except.ok ()

/-- `verify_tx_privacy_gates` (verifier_nostd.rs:524): the three hard-coded
selector-gated gates of the tx_privacy circuit. -/
def verify_tx_privacy_gates (proof : Proof) (vk : VkComponents)
    (_challenges : Challenges) : Except VError Unit :=
  if vk.num_selectors ≠ 3 then
    Except.error (VError.err "Expected 3 selectors for tx_privacy gates")
  else if proof.advice_evals.length ≠ 3 then
    Except.error (VError.err "Expected 3 advice column evaluations")
  else do
    let a0 ← idxP proof.advice_evals 0
    let a1 ← idxP proof.advice_evals 1
    let a2 ← idxP proof.advice_evals 2
    if proof.fixed_evals.length < vk.num_selectors then
      Except.error (VError.err "Not enough fixed evaluations for selectors")
    else do
      let s_commitment ← idxP proof.fixed_evals 0
      let s_balance_check ← idxP proof.fixed_evals 1
      let s_merkle ←
        if proof.fixed_evals.length > 2 then idxP proof.fixed_evals 2
        else Except.ok (0 : Fp)
      if s_commitment * (a0 + a1 - a2) ≠ 0 then
        Except.error (VError.err "Commitment gate constraint failed")
      else if s_balance_check * (a0 - a2 - a1) ≠ 0 then
        Except.error (VError.err "Balance check gate constraint failed")
      else if s_merkle * (a0 + a1 - a2) ≠ 0 then
        Except.error (VError.err "Merkle gate constraint failed")
      else Except.ok ()

/-- `verify_plonk_constraints` (verifier_nostd.rs:410). -/
def verify_plonk_constraints (proof : Proof) (vk : VkComponents)
    (challenges : Challenges) : Except VError Unit :=
  if proof.advice_commitments.length ≠ vk.num_advice_columns then
    Except.error (VError.err "Advice column count mismatch")
  else if vk.permutation_commitments.length ≠ vk.permutation_columns.length then
    Except.error (VError.err "Permutation structure mismatch")
  else if vk.num_advice_columns ≠ 3 then
    Except.error (VError.err "Expected 3 advice columns for tx_privacy circuit")
  else if vk.num_selectors ≠ 3 then
    Except.error (VError.err "Expected 3 selectors for tx_privacy circuit")
  else do
    verify_permutation_argument proof vk challenges
    verify_tx_privacy_gates proof vk challenges

/-- `Vec::resize(n, x)`: truncates when longer than `n`, pads with `x`
otherwise. -/
def resizeList (l : List α) (n : Nat) (x : α) : List α :=
  l.take n ++ List.replicate (n - l.length) x

/-- The MSM loop shared by `compute_commitment` and `verify_ipa_openings`:
`acc += g[i] * values[i]`, stopping at the end of either list (the source
`break`s when `i >= g.len()`). -/
def msm (g : List Pt) (values : List Fp) : Pt :=
  (values.zip g).foldl (fun acc vg => acc.add (vg.2.smul vg.1.val)) .ident

/-- `compute_commitment` (verifier_nostd.rs:310, `std` branch). -/
def compute_commitment (params : ParamsT) (values : List Fp) : Except VError Pt :=
  let n := 2 ^ params.k
  if values.length > n then Except.error (VError.err "Values exceed params size")
  else Except.ok (msm params.g values)

/-- The `for column_values in public_inputs` loop of
`compute_instance_commitments`, pushing commitments in order. -/
def instCommitLoop (params : ParamsT) (n : Nat) :
    List (List Fp) → Except VError (List Pt)
  | [] => .ok []
  | column_values :: rest => do
    let commitment ← compute_commitment params (resizeList column_values n (0 : Fp))
    let commitments ← instCommitLoop params n rest
    .ok (commitment :: commitments)

/-- `compute_instance_commitments` (verifier_nostd.rs:263, `std` branch); the
`params` decoded by `load_params` are passed explicitly.  Note
`padded.resize(n, zero)` truncates columns longer than `n`. -/
def compute_instance_commitments (params : ParamsT)
    (public_inputs : List (List Fp)) : Except VError (List Pt) :=
  instCommitLoop params (2 ^ params.k) public_inputs

/-- One IPA folding round: absorb the two points, squeeze `u_j`, append it. -/
def ipaRoundStep (H : HashSpec) (st : List Fp × Transcript H.St) (lr : Pt × Pt) :
    List Fp × Transcript H.St :=
  let t := Transcript.absorb_point H st.2 lr.1
  let t := Transcript.absorb_point H t lr.2
  let (u, t) := Transcript.squeeze_challenge H t
  (st.1 ++ [u], t)

/-- One step of the `b_scalars` accumulation: multiply slot `j` by `u` when
bit `i` of `j` is set, by `u.invert().unwrap_or(1)` otherwise. -/
def updateB (u : Fp) (i : Nat) (b : List Fp) : List Fp :=
  let u_inv := (Fp.invert u).getD 1
  b.mapIdx (fun j x => if (j >>> i) &&& 1 = 1 then x * u else x * u_inv)

/-- `b_i = prod_j u_j^{±1}` as the source computes it (a vector of `2^rounds`
ones, folded once per challenge). -/
def computeBScalars (us : List Fp) : List Fp :=
  let n := 2 ^ us.length
  us.enum.foldl (fun b iu => updateB iu.2 iu.1 b) (List.replicate n (1 : Fp))

/-- `verify_ipa_openings` (verifier_nostd.rs:334, `std` branch): re-derives
`ξ`, `z`, the folding challenges and `P'`, then — per the source TODO — does
not check any closing equation and returns `Ok(())`. -/
def verify_ipa_openings (H : HashSpec) (params : ParamsT) (proof : Proof)
    (instances : List Pt) : Except VError Unit :=
  let t := Transcript.new H []
  let t := instances.foldl (Transcript.absorb_point H) t
  let t := proof.advice_commitments.foldl (Transcript.absorb_point H) t
  let s_poly := proof.ipa_proof.s_poly_commitment
  let t := Transcript.absorb_point H t s_poly
  let v := proof.ipa_proof.eval_value
  let t := Transcript.absorb_scalar H t v
  let (xi, t) := Transcript.squeeze_challenge H t
  let (z, t) := Transcript.squeeze_challenge H t
  let (challenges, _t) := proof.ipa_proof.rounds.foldl (ipaRoundStep H) ([], t)
  let b_scalars := computeBScalars challenges
  let p_prime := msm params.g b_scalars
  let _ := (xi, z, v, s_poly, p_prime)
  Except.ok ()

/-- `verify_proof_nostd` (verifier_nostd.rs:99), `std` build, with the
decoded embedded VK and params as explicit arguments. -/
def verify_proof_nostd (H : HashSpec) (vk : VkComponents) (params : ParamsT)
    (proof_bytes : List Nat) (public_inputs : List (List Fp)) :
    Except VError Bool :=
  if proof_bytes.isEmpty then Except.error (VError.err "Empty proof")
  else if public_inputs.isEmpty then Except.error (VError.err "Empty public inputs")
  else do
    let (proof, _) ← parse_proof H proof_bytes vk
    let t := Transcript.new H proof_bytes
    let (challenges, _) := generate_challenges H t proof
    verify_plonk_constraints proof vk challenges
    let instance_commitments ← compute_instance_commitments params public_inputs
    verify_ipa_openings H params proof instance_commitments
    Except.ok true

/-! ### Generic helpers and observation functions -/

instance {ε α : Type} [DecidableEq ε] [DecidableEq α] : DecidableEq (Except ε α) :=
  fun a b =>
    match a, b with
    | .ok x, .ok y =>
      if h : x = y then .isTrue (by rw [h]) else .isFalse (by intro hh; cases hh; exact h rfl)
    | .error x, .error y =>
      if h : x = y then .isTrue (by rw [h]) else .isFalse (by intro hh; cases hh; exact h rfl)
    | .ok _, .error _ => .isFalse (by intro hh; cases hh)
    | .error _, .ok _ => .isFalse (by intro hh; cases hh)

/-- Did the computation succeed? -/
def isOkE : Except ε α → Bool
  | .ok _ => true
  | .error _ => false

/-- Is the result exactly `Ok(false)`? -/
def isOkFalse : Except ε Bool → Bool
  | .ok false => true
  | _ => false

/-- Is the result a modelled Rust panic? -/
def isCrash : Except VError α → Bool
  | .error (.crash _) => true
  | _ => false

theorem ok_bind (a : α) (f : α → Except ε β) :
    (Except.ok a >>= f) = f a := rfl

theorem error_bind (e : ε) (f : α → Except ε β) :
    ((Except.error e : Except ε α) >>= f) = Except.error e := rfl

theorem pure_bind_e (a : α) (f : α → Except ε β) :
    ((pure a : Except ε α) >>= f) = f a := rfl

theorem emap_ok (f : α → β) (a : α) :
    Except.map f (Except.ok a : Except ε α) = Except.ok (f a) := rfl

theorem emap_error (f : α → β) (e : ε) :
    Except.map f (Except.error e : Except ε α) = Except.error e := rfl

/-- Flip a single bit (bit `i` of the buffer, little-endian within bytes). -/
def flipBit (i : Nat) (bytes : List Nat) : List Nat :=
  bytes.set (i / 8) ((bytes.getD (i / 8) 0) ^^^ (1 <<< (i % 8)))

/-! ### Concrete instances used in closed statements

The embedded VK is forced by `verify_plonk_constraints` to describe the
tx_privacy shape (3 advice columns, 3 selectors, 4 permutation columns); the
concrete `vkTx` below has that shape with the smallest domain `k = 0`, and
`paramsK0` is a matching reference string. -/

def vkTx : VkComponents :=
  { k := 0, extended_k := 0, omega := toLE32 1,
    num_fixed_columns := 3, num_advice_columns := 3, num_instance_columns := 1,
    num_selectors := 3,
    fixed_commitments := [],
    permutation_commitments := [[], [], [], []],
    permutation_columns := [(0, 0), (1, 0), (2, 0), (0, 1)] }

def paramsK0 : ParamsT := { k := 0, g := [Pt.ident] }

/-- A proof buffer of 21 all-zero 32-byte fields: every point chunk decodes to
the identity, every scalar chunk to zero.  For `vkTx` this is exactly the
expected layout (8 points, 13 scalars, 0 folding rounds). -/
def zeroProofBytes : List Nat := List.replicate 672 0

/-- `zeroProofBytes` with the advice evaluation `a2` set to 1 (byte 288) and
the balance-check selector evaluation set to 1 (byte 352): parses fine, the
permutation check passes (both `Z` evaluations are zero), and the
balance-check gate fails. -/
def gateFailBytes : List Nat := (zeroProofBytes.set 288 1).set 352 1

def paramsK1 : ParamsT := { k := 1, g := [Pt.ident, Pt.ident] }

/-! ### C1: the IPA final opening equation -/

/-- C1: the claim says `verify_ipa_openings` checks the final opening
equation and fails with `IpaVerificationFailed` whenever it does not hold.
In fact (source TODO at verifier_nostd.rs:401) the function re-derives the
challenges and `P'` and then returns `Ok(())` unconditionally, for every
proof and every instance-commitment list; no error is ever produced. -/
theorem claim1_ipa_final_check_missing :
    ∀ (H : HashSpec) (params : ParamsT) (proof : Proof) (instances : List Pt),
      verify_ipa_openings H params proof instances = .ok () :=
  fun _ _ _ _ => rfl

/-! ### C5: instance commitments -/

theorem resizeList_length (l : List α) (n : Nat) (x : α) :
    (resizeList l n x).length = n := by
  simp [resizeList]
  omega

/-- C5 (amended): `compute_instance_commitments` never fails.  Each column is
resized (right-padded with zero, or silently truncated when longer than the
domain) to `2^k` and committed by the MSM against the reference string. -/
theorem claim5_instance_commitments_pad_truncate_msm :
    ∀ (params : ParamsT) (public_inputs : List (List Fp)),
      compute_instance_commitments params public_inputs
        = .ok (public_inputs.map fun col =>
            msm params.g (resizeList col (2 ^ params.k) (0 : Fp))) := by
  intro params pubs
  show instCommitLoop params (2 ^ params.k) pubs = _
  induction pubs with
  | nil => rfl
  | cons col rest ih =>
    have hlen : (resizeList col (2 ^ params.k) (0 : Fp)).length = 2 ^ params.k :=
      resizeList_length _ _ _
    simp [instCommitLoop, compute_commitment, hlen, ih, ok_bind]

/-- C5 (counterexample): a column of 3 values against a domain of size
`2^1 = 2` is not rejected with `ValuesExceedDomain`; it is truncated to the
first two values and committed. -/
theorem claim5_cex_oversize_column_accepted :
    compute_instance_commitments paramsK1 [[(1 : Fp), (2 : Fp), (3 : Fp)]]
      = .ok [Pt.ident] := by decide

/-! ### C2: tamper sensitivity -/

/-- C2: flipping bit 5120 of `zeroProofBytes` (the low bit of the IPA
auxiliary evaluation `eval_value`, bytes 640..672) produces a different,
still well-formed buffer that still verifies `Ok(true)`: `eval_value` is
parsed but — because the final IPA equation is never checked — influences
nothing.  (The accepting runs do not depend on the squeezed challenge
values: both `Z` evaluations in the buffer are zero, so the permutation
check holds for any `β, γ, ζ`, and all selector evaluations are zero.) -/
theorem claim2_bit_flip_tamper_accept :
    verify_proof_nostd trivialHash vkTx paramsK0 zeroProofBytes [[(0 : Fp)]] = .ok true
    ∧ verify_proof_nostd trivialHash vkTx paramsK0 (flipBit 5120 zeroProofBytes)
        [[(0 : Fp)]] = .ok true
    ∧ (flipBit 5120 zeroProofBytes == zeroProofBytes) = false := by
  refine ⟨by decide, by decide, by decide⟩

/-! ### C3: constraint failures are hard errors, not `Ok(false)` -/

/-- C3 (amended): `verify_proof_nostd` never returns `Ok(false)`: its only
success value is `Ok(true)`, and every failed check — including the
permutation and gate constraint checks — surfaces as `Err`. -/
theorem bind_never_ok_false (x : Except VError α) (f : α → Except VError Bool)
    (h : ∀ a, isOkFalse (f a) = false) : isOkFalse (x >>= f) = false := by
  cases x with
  | error e => rw [error_bind]; rfl
  | ok a => rw [ok_bind]; exact h a

theorem claim3_verify_never_returns_ok_false :
    ∀ (H : HashSpec) (vk : VkComponents) (params : ParamsT)
      (proof_bytes : List Nat) (public_inputs : List (List Fp)),
      isOkFalse (verify_proof_nostd H vk params proof_bytes public_inputs) = false := by
  intro H vk params bytes pubs
  unfold verify_proof_nostd
  split
  · rfl
  · split
    · rfl
    · apply bind_never_ok_false
      intro a
      rcases a with ⟨proof, t0⟩
      dsimp only
      rcases hg : generate_challenges H (Transcript.new H bytes) proof with ⟨ch, t2⟩
      apply bind_never_ok_false
      intro u
      apply bind_never_ok_false
      intro insts
      apply bind_never_ok_false
      intro u2
      rfl

/-- C3 (counterexample): a buffer that parses into a structurally well-formed
proof but fails the balance-check gate makes `verify_proof_nostd` return the
gate `Err`, not `Ok(false)`. -/
theorem claim3_cex_constraint_failure_is_err :
    isOkE (parse_proof trivialHash gateFailBytes vkTx) = true
    ∧ verify_proof_nostd trivialHash vkTx paramsK0 gateFailBytes [[(0 : Fp)]]
        = .error (.err "Balance check gate constraint failed") := by
  refine ⟨by decide, by decide⟩

/-! ### C7: the challenge-derivation sequence -/

/-- Absorb a list of points in order (spec §4.3 wording). -/
def absorbPoints (H : HashSpec) (ps : List Pt) (t : Transcript H.St) :
    Transcript H.St :=
  ps.foldl (Transcript.absorb_point H) t

/-- Absorb a list of scalars in order (spec §4.3 wording). -/
def absorbScalars (H : HashSpec) (ss : List Fp) (t : Transcript H.St) :
    Transcript H.St :=
  ss.foldl (Transcript.absorb_scalar H) t

/-- The challenge derivation exactly as the spec words it: absorb all advice
commitments, squeeze `beta`, squeeze `gamma`, absorb the permutation product
commitment, squeeze `theta`, absorb all quotient commitments, squeeze `zeta`,
absorb all advice evals then all fixed evals then all permutation evals then
the two permutation-product evaluations, squeeze `v`. -/
def generate_challenges_spec (H : HashSpec) (t : Transcript H.St) (proof : Proof) :
    Challenges × Transcript H.St :=
  let t1 := absorbPoints H proof.advice_commitments t
  let (beta, t2) := Transcript.squeeze_challenge H t1
  let (gamma, t3) := Transcript.squeeze_challenge H t2
  let t4 := Transcript.absorb_point H t3 proof.permutation_product_commitment
  let (theta, t5) := Transcript.squeeze_challenge H t4
  let t6 := absorbPoints H proof.quotient_commitment t5
  let (zeta, t7) := Transcript.squeeze_challenge H t6
  let t8 := absorbScalars H proof.advice_evals t7
  let t9 := absorbScalars H proof.fixed_evals t8
  let t10 := absorbScalars H proof.permutation_evals t9
  let t11 := Transcript.absorb_scalar H t10 proof.permutation_product_eval
  let t12 := Transcript.absorb_scalar H t11 proof.permutation_product_next_eval
  let (v, t13) := Transcript.squeeze_challenge H t12
  ({ beta := beta, gamma := gamma, theta := theta, zeta := zeta, v := v }, t13)

theorem foldl_absorb_point_proofData (H : HashSpec) (ps : List Pt) :
    ∀ t : Transcript H.St,
      (ps.foldl (Transcript.absorb_point H) t).proofData = t.proofData := by
  induction ps with
  | nil => intro t; rfl
  | cons p ps ih => intro t; exact ih (Transcript.absorb_point H t p)

theorem foldl_absorb_point_position (H : HashSpec) (ps : List Pt) :
    ∀ t : Transcript H.St,
      (ps.foldl (Transcript.absorb_point H) t).position = t.position := by
  induction ps with
  | nil => intro t; rfl
  | cons p ps ih => intro t; exact ih (Transcript.absorb_point H t p)

theorem foldl_absorb_scalar_proofData (H : HashSpec) (ss : List Fp) :
    ∀ t : Transcript H.St,
      (ss.foldl (Transcript.absorb_scalar H) t).proofData = t.proofData := by
  induction ss with
  | nil => intro t; rfl
  | cons s ss ih => intro t; exact ih (Transcript.absorb_scalar H t s)

theorem foldl_absorb_scalar_position (H : HashSpec) (ss : List Fp) :
    ∀ t : Transcript H.St,
      (ss.foldl (Transcript.absorb_scalar H) t).position = t.position := by
  induction ss with
  | nil => intro t; rfl
  | cons s ss ih => intro t; exact ih (Transcript.absorb_scalar H t s)

/-- C7: `generate_challenges` drives the transcript through exactly the
spec's absorb/squeeze sequence; it is a pure function of `(transcript,
proof)` (by construction of the embedding), and its only effect is on the
transcript's hasher state — the proof-buffer view (`proofData`, `position`)
is untouched. -/
theorem claim7_challenge_sequence :
    ∀ (H : HashSpec) (t : Transcript H.St) (proof : Proof),
      generate_challenges H t proof = generate_challenges_spec H t proof
      ∧ (generate_challenges H t proof).2.proofData = t.proofData
      ∧ (generate_challenges H t proof).2.position = t.position := by
  intro H t proof
  refine ⟨rfl, ?_, ?_⟩ <;>
    simp [generate_challenges, Transcript.squeeze_challenge, Transcript.absorb_point,
      Transcript.absorb_scalar, foldl_absorb_point_proofData,
      foldl_absorb_point_position, foldl_absorb_scalar_proofData,
      foldl_absorb_scalar_position]

/-! ### C8: the custom-gate check -/

/-- Advice evaluation at `ζ` for column `i` (zero when out of range). -/
def adviceAt (proof : Proof) (i : Nat) : Fp := (proof.advice_evals[i]?).getD 0

/-- Fixed (selector) evaluation at `ζ` for column `i` (zero when out of range). -/
def fixedAt (proof : Proof) (i : Nat) : Fp := (proof.fixed_evals[i]?).getD 0

def ch0 : Challenges := { beta := 0, gamma := 0, theta := 0, zeta := 0, v := 0 }

/-- A proof record carrying only evaluations (commitments are immaterial to
the algebraic checks). -/
def mkEvalProof (advice fixeds permEvals : List Fp) (zEval zNextEval : Fp) : Proof :=
  { advice_commitments := [], permutation_product_commitment := .ident,
    quotient_commitment := [], advice_evals := advice, fixed_evals := fixeds,
    permutation_evals := permEvals, permutation_product_eval := zEval,
    permutation_product_next_eval := zNextEval,
    ipa_proof := { s_poly_commitment := .ident, eval_value := 0, rounds := [] } }

/-- The balance-transfer evaluation triple of spec §8.7 with the
balance-check selector on. -/
def balanceOkProof : Proof :=
  mkEvalProof [(1000 : Fp), 700, 300] [(0 : Fp), 1, 0] [] 0 0

/-- The same with `amount` mutated to 301. -/
def balanceBadProof : Proof :=
  mkEvalProof [(1000 : Fp), 700, 301] [(0 : Fp), 1, 0] [] 0 0

/-- C8: for a VK with 3 selectors, a proof with exactly 3 advice evaluations
and at least 3 fixed evaluations passes the custom-gate check exactly when
the three selector-gated identities vanish at `ζ`; concretely, the triple
`(1000, 700, 300)` with the balance-check selector equal to `1` is accepted,
and mutating the amount to `301` is rejected. -/
theorem claim8_gate_check_iff :
    (∀ (vk : VkComponents) (proof : Proof) (ch : Challenges),
      vk.num_selectors = 3 →
      proof.advice_evals.length = 3 →
      3 ≤ proof.fixed_evals.length →
      ((verify_tx_privacy_gates proof vk ch = .ok ()) ↔
        (fixedAt proof 0 * (adviceAt proof 0 + adviceAt proof 1 - adviceAt proof 2) = 0
         ∧ fixedAt proof 1 * (adviceAt proof 0 - adviceAt proof 2 - adviceAt proof 1) = 0
         ∧ fixedAt proof 2 * (adviceAt proof 0 + adviceAt proof 1 - adviceAt proof 2) = 0)))
    ∧ verify_tx_privacy_gates balanceOkProof vkTx ch0 = .ok ()
    ∧ verify_tx_privacy_gates balanceBadProof vkTx ch0
        = .error (.err "Balance check gate constraint failed") := by
  refine ⟨?_, by decide, by decide⟩
  intro vk proof ch hsel ha hf
  rcases proof with ⟨ac, ppc, qc, ae, fe, pe, zpe, zne, ipa⟩
  dsimp only at ha hf ⊢
  rcases ae with _ | ⟨a0, ae⟩; · simp at ha
  rcases ae with _ | ⟨a1, ae⟩; · simp at ha
  rcases ae with _ | ⟨a2, ae⟩; · simp at ha
  have hae : ae = [] := by
    cases ae with
    | nil => rfl
    | cons x xs => simp at ha
  subst hae
  rcases fe with _ | ⟨f0, fe⟩; · simp at hf
  rcases fe with _ | ⟨f1, fe⟩; · simp at hf
  rcases fe with _ | ⟨f2, fe⟩; · simp at hf
  simp only [verify_tx_privacy_gates, hsel, idxP, ok_bind, adviceAt, fixedAt,
    List.getElem?_cons_zero, List.getElem?_cons_succ]
  split_ifs <;> simp_all
  omega

theorem claim8_witness :
    vkTx.num_selectors = 3
    ∧ balanceOkProof.advice_evals.length = 3
    ∧ 3 ≤ balanceOkProof.fixed_evals.length
    ∧ ((verify_tx_privacy_gates balanceOkProof vkTx ch0 = .ok ()) ↔
        (fixedAt balanceOkProof 0
            * (adviceAt balanceOkProof 0 + adviceAt balanceOkProof 1 - adviceAt balanceOkProof 2) = 0
         ∧ fixedAt balanceOkProof 1
            * (adviceAt balanceOkProof 0 - adviceAt balanceOkProof 2 - adviceAt balanceOkProof 1) = 0
         ∧ fixedAt balanceOkProof 2
            * (adviceAt balanceOkProof 0 + adviceAt balanceOkProof 1 - adviceAt balanceOkProof 2) = 0)) :=
  ⟨by decide, by decide, by decide,
   claim8_gate_check_iff.1 vkTx balanceOkProof ch0 (by decide) (by decide) (by decide)⟩

/-! ### C4: the permutation grand-product check -/

theorem Fp.val_eq (a b : Fp) (h : a.val = b.val) : a = b := by
  cases a; cases b; cases h; rfl

theorem Fp.one_mul (a : Fp) : (1 : Fp) * a = a := by
  apply Fp.val_eq
  show ((1 % pMod) * a.val) % pMod = a.val
  rw [Nat.mod_eq_of_lt (by decide : (1 : Nat) < pMod), Nat.one_mul,
    Nat.mod_eq_of_lt a.isLt]

theorem Fp.mul_one (a : Fp) : a * (1 : Fp) = a := by
  apply Fp.val_eq
  show (a.val * (1 % pMod)) % pMod = a.val
  rw [Nat.mod_eq_of_lt (by decide : (1 : Nat) < pMod), Nat.mul_one,
    Nat.mod_eq_of_lt a.isLt]

theorem Fp.mul_assoc (a b c : Fp) : a * b * c = a * (b * c) := by
  apply Fp.val_eq
  show (a.val * b.val % pMod * c.val) % pMod
      = (a.val * (b.val * c.val % pMod)) % pMod
  rw [Nat.mod_mul_mod, Nat.mul_mod_mod, Nat.mul_assoc]

theorem Fp.pow_zero (a : Fp) : a ^ (0 : Nat) = 1 := rfl

theorem Fp.pow_succ (a : Fp) (n : Nat) : a ^ (n + 1) = a * a ^ n := rfl

/-- `aᵢ` as the claim defines it: the advice evaluation of the permuted
column for advice columns, zero for instance columns. -/
def aEval (proof : Proof) (c : Nat × Nat) : Fp :=
  if c.2 = 0 then (proof.advice_evals[c.1]?).getD 0 else 0

/-- `∏ᵢ (aᵢ + β·ζ·ωⁱ + γ)` over the VK's permuted columns (claim wording). -/
def permSpecLeftAux (proof : Proof) (beta gamma zeta omegaVal : Fp) :
    List (Nat × Nat) → Nat → Fp → Fp
  | [], _, acc => acc
  | c :: cs, i, acc =>
    permSpecLeftAux proof beta gamma zeta omegaVal cs (i + 1)
      (acc * (aEval proof c + beta * zeta * omegaVal ^ i + gamma))

def permSpecLeft (proof : Proof) (beta gamma zeta omegaVal : Fp)
    (cols : List (Nat × Nat)) : Fp :=
  permSpecLeftAux proof beta gamma zeta omegaVal cols 0 1

/-- `∏ᵢ (aᵢ + β·Sᵢ(ζ) + γ)` (claim wording). -/
def permSpecRightAux (proof : Proof) (beta gamma : Fp) :
    List (Nat × Nat) → Nat → Fp → Fp
  | [], _, acc => acc
  | c :: cs, i, acc =>
    permSpecRightAux proof beta gamma cs (i + 1)
      (acc * (aEval proof c + beta * (proof.permutation_evals[i]?).getD 0 + gamma))

def permSpecRight (proof : Proof) (beta gamma : Fp) (cols : List (Nat × Nat)) : Fp :=
  permSpecRightAux proof beta gamma cols 0 1

theorem permStepL_ok (proof : Proof) (vk : VkComponents)
    (beta gamma zeta omegaVal : Fp) (st : Fp × Fp) (i : Nat) (c : Nat × Nat)
    (hc : vk.permutation_columns[i]? = some c)
    (ht : c.2 = 0 ∨ c.2 = 1)
    (hb : c.2 = 0 → c.1 < proof.advice_evals.length) :
    permStepL proof vk beta gamma zeta omegaVal st i
      = .ok (st.1 * (aEval proof c + beta * zeta * st.2 + gamma),
             st.2 * omegaVal) := by
  rcases ht with h | h
  · have hlt := hb h
    rcases hx : proof.advice_evals[c.1]? with _ | a
    · exact absurd (List.getElem?_eq_none_iff.mp hx) (Nat.not_le.mpr hlt)
    · simp [permStepL, idxP, hc, hx, h, aEval, Nat.not_le.mpr hlt, ok_bind]
  · simp [permStepL, idxP, hc, h, aEval, ok_bind]

theorem permStepR_ok (proof : Proof) (vk : VkComponents) (beta gamma : Fp)
    (rp : Fp) (i : Nat) (c : Nat × Nat)
    (hc : vk.permutation_columns[i]? = some c)
    (ht : c.2 = 0 ∨ c.2 = 1)
    (hb : c.2 = 0 → c.1 < proof.advice_evals.length)
    (hp : i < proof.permutation_evals.length) :
    permStepR proof vk beta gamma rp i
      = .ok (rp * (aEval proof c
          + beta * (proof.permutation_evals[i]?).getD 0 + gamma)) := by
  rcases hpe : proof.permutation_evals[i]? with _ | pe
  · exact absurd (List.getElem?_eq_none_iff.mp hpe) (Nat.not_le.mpr hp)
  rcases ht with h | h
  · have hlt := hb h
    rcases hx : proof.advice_evals[c.1]? with _ | a
    · exact absurd (List.getElem?_eq_none_iff.mp hx) (Nat.not_le.mpr hlt)
    · simp [permStepR, idxP, hc, hx, hpe, h, aEval, Nat.not_le.mpr hp, ok_bind]
  · simp [permStepR, idxP, hc, hpe, h, aEval, Nat.not_le.mpr hp, ok_bind]

theorem ite_ne_ok_iff {x y : Fp} {e : VError} :
    ((if x ≠ y then Except.error e else Except.ok ()) = Except.ok ()) ↔ x = y := by
  split_ifs with h <;> simp_all

theorem length_eq_four (L : List α) (h : L.length = 4) :
    ∃ a b c d, L = [a, b, c, d] := by
  rcases L with _ | ⟨a, _ | ⟨b, _ | ⟨c, _ | ⟨d, _ | ⟨e, r⟩⟩⟩⟩⟩
  · simp at h
  · simp at h
  · simp at h
  · simp at h
  · exact ⟨a, b, c, d, rfl⟩
  · simp at h

theorem perm_tail_iff {lhs rhs lhs' rhs' : Fp} (hl : lhs = lhs') (hr : rhs = rhs') :
    (((if lhs ≠ rhs then
        Except.error (VError.err "Permutation grand product check failed")
       else Except.ok ()) = Except.ok ()) ↔ lhs' = rhs')
    ∧ ((if lhs ≠ rhs then
        Except.error (VError.err "Permutation grand product check failed")
        else Except.ok ()) = Except.ok ()
       ∨ (if lhs ≠ rhs then
          Except.error (VError.err "Permutation grand product check failed")
          else Except.ok ())
           = Except.error (VError.err "Permutation grand product check failed")) := by
  subst hl
  subst hr
  refine ⟨ite_ne_ok_iff, ?_⟩
  split_ifs <;> simp

/-- C4 (amended: the VK must have exactly 4 permutation columns, the shape
`verify_permutation_argument` supports): for such VKs whose columns are
advice or instance columns, with in-bounds evaluation indices, the check
accepts exactly when `Z(ωζ)·∏ᵢ(aᵢ+β·ζ·ωⁱ+γ) = Z(ζ)·∏ᵢ(aᵢ+β·Sᵢ(ζ)+γ)` (zero
substituted for instance columns), and any failure of that equation yields
exactly the permutation-check-failed error. -/
theorem claim4_permutation_check_iff :
    ∀ (vk : VkComponents) (proof : Proof) (ch : Challenges) (omegaVal : Fp),
      vk.permutation_columns.length = 4 →
      vk.get_omega = .ok omegaVal →
      (∀ c ∈ vk.permutation_columns, c.2 = 0 ∨ c.2 = 1) →
      (∀ c ∈ vk.permutation_columns, c.2 = 0 → c.1 < proof.advice_evals.length) →
      4 ≤ proof.permutation_evals.length →
      ((verify_permutation_argument proof vk ch = .ok ()) ↔
        proof.permutation_product_next_eval
            * permSpecLeft proof ch.beta ch.gamma ch.zeta omegaVal vk.permutation_columns
          = proof.permutation_product_eval
            * permSpecRight proof ch.beta ch.gamma vk.permutation_columns)
      ∧ (verify_permutation_argument proof vk ch = .ok ()
         ∨ verify_permutation_argument proof vk ch
             = .error (.err "Permutation grand product check failed")) := by
  intro vk proof ch omegaVal hlen homega htypes hbounds hpe
  obtain ⟨c0, c1, c2, c3, hcols⟩ := length_eq_four _ hlen
  have ht0 := htypes c0 (by rw [hcols]; simp)
  have ht1 := htypes c1 (by rw [hcols]; simp)
  have ht2 := htypes c2 (by rw [hcols]; simp)
  have ht3 := htypes c3 (by rw [hcols]; simp)
  have hb0 := hbounds c0 (by rw [hcols]; simp)
  have hb1 := hbounds c1 (by rw [hcols]; simp)
  have hb2 := hbounds c2 (by rw [hcols]; simp)
  have hb3 := hbounds c3 (by rw [hcols]; simp)
  have h0 : vk.permutation_columns[0]? = some c0 := by rw [hcols]; rfl
  have h1 : vk.permutation_columns[1]? = some c1 := by rw [hcols]; rfl
  have h2 : vk.permutation_columns[2]? = some c2 := by rw [hcols]; rfl
  have h3 : vk.permutation_columns[3]? = some c3 := by rw [hcols]; rfl
  have hr4 : List.range 4 = [0, 1, 2, 3] := by decide
  unfold verify_permutation_argument
  rw [if_neg (by rw [hlen]; intro hcon; exact hcon rfl), homega, ok_bind, hr4]
  simp only [List.foldlM_cons, List.foldlM_nil]
  rw [permStepL_ok proof vk ch.beta ch.gamma ch.zeta omegaVal _ _ c0 h0 ht0 hb0, ok_bind,
    permStepL_ok proof vk ch.beta ch.gamma ch.zeta omegaVal _ _ c1 h1 ht1 hb1, ok_bind,
    permStepL_ok proof vk ch.beta ch.gamma ch.zeta omegaVal _ _ c2 h2 ht2 hb2, ok_bind,
    permStepL_ok proof vk ch.beta ch.gamma ch.zeta omegaVal _ _ c3 h3 ht3 hb3, ok_bind]
  simp only [pure_bind_e]
  rw [permStepR_ok proof vk ch.beta ch.gamma _ 0 c0 h0 ht0 hb0 (by omega), ok_bind,
    permStepR_ok proof vk ch.beta ch.gamma _ 1 c1 h1 ht1 hb1 (by omega), ok_bind,
    permStepR_ok proof vk ch.beta ch.gamma _ 2 c2 h2 ht2 hb2 (by omega), ok_bind,
    permStepR_ok proof vk ch.beta ch.gamma _ 3 c3 h3 ht3 hb3 (by omega), ok_bind]
  simp only [pure_bind_e]
  rw [hcols]
  exact perm_tail_iff
    (by simp [permSpecLeft, permSpecLeftAux, Fp.pow_succ, Fp.pow_zero, Fp.one_mul,
      Fp.mul_one, Fp.mul_assoc])
    (by simp [permSpecRight, permSpecRightAux, Fp.one_mul, Fp.mul_one, Fp.mul_assoc])

/-- The VK shape for the counterexample: a single permuted advice column. -/
def vkPerm1 : VkComponents :=
  { vkTx with permutation_columns := [(0, 0)], permutation_commitments := [[]] }

def permCexProof : Proof := mkEvalProof [0, 0, 0] [] [0] 0 0

def permWitProof : Proof := mkEvalProof [0, 0, 0] [] [0, 0, 0, 0] 0 0

/-- C4 (counterexample): a VK whose permutation columns all select advice or
instance columns but number one instead of four satisfies the claim's
equation `Z(ωζ)·∏ = Z(ζ)·∏` (all products of zero `Z` evaluations), yet
`verify_permutation_argument` does not accept — it fails with the
column-count error, not the permutation-check-failed error. -/
theorem claim4_cex_wrong_column_count :
    permCexProof.permutation_product_next_eval
        * permSpecLeft permCexProof ch0.beta ch0.gamma ch0.zeta 1
            vkPerm1.permutation_columns
      = permCexProof.permutation_product_eval
        * permSpecRight permCexProof ch0.beta ch0.gamma vkPerm1.permutation_columns
    ∧ vkPerm1.get_omega = .ok (1 : Fp)
    ∧ (∀ c ∈ vkPerm1.permutation_columns, c.2 = 0 ∨ c.2 = 1)
    ∧ (∀ c ∈ vkPerm1.permutation_columns,
        c.2 = 0 → c.1 < permCexProof.advice_evals.length)
    ∧ verify_permutation_argument permCexProof vkPerm1 ch0
        = .error (.err "Incorrect permutation column count") := by
  refine ⟨by decide, by decide, by decide, by decide, by decide⟩

theorem claim4_witness :
    vkTx.permutation_columns.length = 4
    ∧ vkTx.get_omega = .ok (1 : Fp)
    ∧ (∀ c ∈ vkTx.permutation_columns, c.2 = 0 ∨ c.2 = 1)
    ∧ (∀ c ∈ vkTx.permutation_columns,
        c.2 = 0 → c.1 < permWitProof.advice_evals.length)
    ∧ 4 ≤ permWitProof.permutation_evals.length
    ∧ (((verify_permutation_argument permWitProof vkTx ch0 = .ok ()) ↔
        permWitProof.permutation_product_next_eval
            * permSpecLeft permWitProof ch0.beta ch0.gamma ch0.zeta 1
                vkTx.permutation_columns
          = permWitProof.permutation_product_eval
            * permSpecRight permWitProof ch0.beta ch0.gamma vkTx.permutation_columns)
      ∧ (verify_permutation_argument permWitProof vkTx ch0 = .ok ()
         ∨ verify_permutation_argument permWitProof vkTx ch0
             = .error (.err "Permutation grand product check failed"))) :=
  ⟨by decide, by decide, by decide, by decide, by decide,
   claim4_permutation_check_iff vkTx permWitProof ch0 1 (by decide) (by decide)
     (by decide) (by decide) (by decide)⟩

/-! ### C9: panic-freedom -/

theorem isCrash_bind (x : Except VError α) (f : α → Except VError β)
    (hx : isCrash x = false) (hf : ∀ a, isCrash (f a) = false) :
    isCrash (x >>= f) = false := by
  cases x with
  | error e =>
    rw [error_bind]
    cases e with
    | err m => rfl
    | crash m => exact hx
  | ok a => rw [ok_bind]; exact hf a

theorem idxP_not_crash_of_lt {l : List α} {n : Nat} (h : n < l.length) :
    isCrash (idxP l n) = false := by
  rcases hx : l[n]? with _ | a
  · exact absurd (List.getElem?_eq_none_iff.mp hx) (Nat.not_le.mpr h)
  · simp [idxP, hx, isCrash]

theorem isCrash_read_point (H : HashSpec) (t : Transcript H.St) :
    isCrash (Transcript.read_point H t) = false := by
  unfold Transcript.read_point
  split
  · rfl
  · dsimp only
    split <;> rfl

theorem isCrash_read_scalar (H : HashSpec) (t : Transcript H.St) :
    isCrash (Transcript.read_scalar H t) = false := by
  unfold Transcript.read_scalar
  split
  · rfl
  · dsimp only
    split <;> rfl

theorem isCrash_readPoints (H : HashSpec) (n : Nat) :
    ∀ t : Transcript H.St, isCrash (readPoints H n t) = false := by
  induction n with
  | zero => intro t; rfl
  | succ n ih =>
    intro t
    simp only [readPoints]
    apply isCrash_bind _ _ (isCrash_read_point H t)
    intro a
    rcases a with ⟨p, t1⟩
    apply isCrash_bind _ _ (ih t1)
    intro b
    rcases b with ⟨ps, t2⟩
    rfl

theorem isCrash_readScalars (H : HashSpec) (n : Nat) :
    ∀ t : Transcript H.St, isCrash (readScalars H n t) = false := by
  induction n with
  | zero => intro t; rfl
  | succ n ih =>
    intro t
    simp only [readScalars]
    apply isCrash_bind _ _ (isCrash_read_scalar H t)
    intro a
    rcases a with ⟨p, t1⟩
    apply isCrash_bind _ _ (ih t1)
    intro b
    rcases b with ⟨ps, t2⟩
    rfl

theorem isCrash_readRounds (H : HashSpec) (n : Nat) :
    ∀ t : Transcript H.St, isCrash (readRounds H n t) = false := by
  induction n with
  | zero => intro t; rfl
  | succ n ih =>
    intro t
    simp only [readRounds]
    apply isCrash_bind _ _ (isCrash_read_point H t)
    intro a
    rcases a with ⟨l, t1⟩
    apply isCrash_bind _ _ (isCrash_read_point H t1)
    intro b
    rcases b with ⟨r, t2⟩
    apply isCrash_bind _ _ (ih t2)
    intro c
    rcases c with ⟨rs, t3⟩
    rfl

theorem isCrash_parse_proof (H : HashSpec) (bytes : List Nat) (vk : VkComponents) :
    isCrash (parse_proof H bytes vk) = false := by
  unfold parse_proof
  apply isCrash_bind _ _ (isCrash_readPoints H _ _)
  intro a; rcases a with ⟨ac, t⟩
  apply isCrash_bind _ _ (isCrash_read_point H t)
  intro a; rcases a with ⟨ppc, t⟩
  apply isCrash_bind _ _ (isCrash_readPoints H _ _)
  intro a; rcases a with ⟨qc, t⟩
  apply isCrash_bind _ _ (isCrash_readScalars H _ _)
  intro a; rcases a with ⟨ae, t⟩
  apply isCrash_bind _ _ (isCrash_readScalars H _ _)
  intro a; rcases a with ⟨fe, t⟩
  apply isCrash_bind _ _ (isCrash_readScalars H _ _)
  intro a; rcases a with ⟨pe, t⟩
  apply isCrash_bind _ _ (isCrash_read_scalar H t)
  intro a; rcases a with ⟨zp, t⟩
  apply isCrash_bind _ _ (isCrash_read_scalar H t)
  intro a; rcases a with ⟨zn, t⟩
  apply isCrash_bind _ _ (isCrash_read_point H t)
  intro a; rcases a with ⟨sp, t⟩
  apply isCrash_bind _ _ (isCrash_read_scalar H t)
  intro a; rcases a with ⟨ev, t⟩
  apply isCrash_bind _ _ (isCrash_readRounds H _ _)
  intro a; rcases a with ⟨rs, t⟩
  rfl

theorem isCrash_permStepL (proof : Proof) (vk : VkComponents)
    (beta gamma zeta omegaVal : Fp) (st : Fp × Fp) (i : Nat)
    (h : i < vk.permutation_columns.length) :
    isCrash (permStepL proof vk beta gamma zeta omegaVal st i) = false := by
  unfold permStepL
  apply isCrash_bind _ _ (idxP_not_crash_of_lt h)
  intro c
  dsimp only
  split
  · split
    · rfl
    · next hge =>
      apply isCrash_bind _ _ (idxP_not_crash_of_lt (Nat.lt_of_not_le hge))
      intro w
      rfl
  · split <;> rfl

theorem permStepL_ok_bound (proof : Proof) (vk : VkComponents)
    (beta gamma zeta omegaVal : Fp) (st : Fp × Fp) (i : Nat) (v : Fp × Fp)
    (h : permStepL proof vk beta gamma zeta omegaVal st i = .ok v) :
    ∀ c, vk.permutation_columns[i]? = some c →
      (c.2 = 0 → c.1 < proof.advice_evals.length) := by
  intro c hc h0
  by_contra hnot
  have hge : proof.advice_evals.length ≤ c.1 := Nat.le_of_not_lt hnot
  simp only [permStepL, idxP, hc, ok_bind, if_pos h0, if_pos hge, error_bind] at h
  exact Except.noConfusion h

theorem isCrash_permStepR (proof : Proof) (vk : VkComponents)
    (beta gamma : Fp) (rp : Fp) (i : Nat)
    (h : i < vk.permutation_columns.length)
    (hsafe : ∀ c, vk.permutation_columns[i]? = some c →
      (c.2 = 0 → c.1 < proof.advice_evals.length)) :
    isCrash (permStepR proof vk beta gamma rp i) = false := by
  have hc := List.getElem?_eq_getElem h
  unfold permStepR
  simp only [idxP, hc, ok_bind]
  split
  · next h0 =>
    apply isCrash_bind _ _ (idxP_not_crash_of_lt (hsafe _ hc h0))
    intro w
    split
    · rfl
    · next hlt =>
      apply isCrash_bind _ _ (idxP_not_crash_of_lt (Nat.lt_of_not_le hlt))
      intro pe
      rfl
  · split
    · split
      · rfl
      · next hlt =>
        apply isCrash_bind _ _ (idxP_not_crash_of_lt (Nat.lt_of_not_le hlt))
        intro pe
        rfl
    · rfl

theorem isCrash_foldlM (f : β → α → Except VError β) (l : List α) :
    ∀ (b : β), (∀ b' a, a ∈ l → isCrash (f b' a) = false) →
      isCrash (l.foldlM f b) = false := by
  induction l with
  | nil => intro b _; rfl
  | cons a l ih =>
    intro b h
    simp only [List.foldlM_cons]
    apply isCrash_bind _ _ (h b a (by simp))
    intro b'
    exact ih b' (fun b'' a' ha' => h b'' a' (by simp [ha']))

theorem foldlM_ok_mem (f : β → α → Except VError β) (l : List α) :
    ∀ (b r : β), l.foldlM f b = .ok r → ∀ a ∈ l, ∃ b' r', f b' a = .ok r' := by
  induction l with
  | nil => intro b r _ a ha; cases ha
  | cons x l ih =>
    intro b r h a ha
    simp only [List.foldlM_cons] at h
    cases hx : f b x with
    | error e => rw [hx, error_bind] at h; exact Except.noConfusion h
    | ok b1 =>
      rw [hx, ok_bind] at h
      rcases List.mem_cons.mp ha with rfl | ha2
      · exact ⟨b, b1, hx⟩
      · exact ih b1 r h a ha2

theorem isCrash_get_omega (vk : VkComponents) :
    isCrash vk.get_omega = false := by
  unfold VkComponents.get_omega
  split
  · rfl
  · split <;> rfl

theorem isCrash_verify_permutation_argument (proof : Proof) (vk : VkComponents)
    (ch : Challenges) :
    isCrash (verify_permutation_argument proof vk ch) = false := by
  unfold verify_permutation_argument
  dsimp only
  split
  · rfl
  · next hlen4 =>
    have hlen : vk.permutation_columns.length = 4 := by
      by_contra hh; exact hlen4 hh
    apply isCrash_bind _ _ (isCrash_get_omega vk)
    intro w
    have hstepL : ∀ (b' : Fp × Fp) (a : Nat), a ∈ List.range 4 →
        isCrash (permStepL proof vk ch.beta ch.gamma ch.zeta w b' a) = false := by
      intro b' a ha
      exact isCrash_permStepL proof vk ch.beta ch.gamma ch.zeta w b' a
        (by rw [hlen]; exact List.mem_range.mp ha)
    cases hL : (List.range 4).foldlM
        (permStepL proof vk ch.beta ch.gamma ch.zeta w) ((1 : Fp), (1 : Fp)) with
    | error e =>
      rw [error_bind]
      have hnc := isCrash_foldlM (permStepL proof vk ch.beta ch.gamma ch.zeta w)
        (List.range 4) ((1 : Fp), (1 : Fp)) hstepL
      rw [hL] at hnc
      cases e with
      | err m => rfl
      | crash m => exact hnc
    | ok st =>
      rw [ok_bind]
      have hsafe : ∀ (b' : Fp) (a : Nat), a ∈ List.range 4 →
          isCrash (permStepR proof vk ch.beta ch.gamma b' a) = false := by
        intro b' a ha
        obtain ⟨st', v', hok⟩ := foldlM_ok_mem _ _ _ _ hL a ha
        exact isCrash_permStepR proof vk ch.beta ch.gamma b' a
          (by rw [hlen]; exact List.mem_range.mp ha)
          (permStepL_ok_bound proof vk ch.beta ch.gamma ch.zeta w st' a v' hok)
      cases hR : (List.range 4).foldlM
          (permStepR proof vk ch.beta ch.gamma) (1 : Fp) with
      | error e =>
        rw [error_bind]
        have hnc := isCrash_foldlM (permStepR proof vk ch.beta ch.gamma)
          (List.range 4) (1 : Fp) hsafe
        rw [hR] at hnc
        cases e with
        | err m => rfl
        | crash m => exact hnc
      | ok rp =>
        rw [ok_bind]
        split <;> rfl

theorem isCrash_verify_tx_privacy_gates (proof : Proof) (vk : VkComponents)
    (ch : Challenges) :
    isCrash (verify_tx_privacy_gates proof vk ch) = false := by
  unfold verify_tx_privacy_gates
  split
  · rfl
  · split
    · rfl
    · next hsel0 hae0 =>
      have ha : proof.advice_evals.length = 3 := by
        by_contra hh; exact hae0 hh
      apply isCrash_bind _ _ (idxP_not_crash_of_lt (by omega))
      intro a0
      apply isCrash_bind _ _ (idxP_not_crash_of_lt (by omega))
      intro a1
      apply isCrash_bind _ _ (idxP_not_crash_of_lt (by omega))
      intro a2
      split
      · rfl
      · next hflen =>
        have hsel : vk.num_selectors = 3 := by
          by_contra hh; exact hsel0 hh
        have hf : 3 ≤ proof.fixed_evals.length := by
          have := Nat.le_of_not_lt hflen
          omega
        apply isCrash_bind _ _ (idxP_not_crash_of_lt (by omega))
        intro s0
        apply isCrash_bind _ _ (idxP_not_crash_of_lt (by omega))
        intro s1
        dsimp only
        split
        · next h2 =>
          apply isCrash_bind _ _ (idxP_not_crash_of_lt h2)
          intro s2
          split
          · rfl
          · split
            · rfl
            · split <;> rfl
        · rw [ok_bind]
          split
          · rfl
          · split
            · rfl
            · split <;> rfl

theorem isCrash_verify_plonk_constraints (proof : Proof) (vk : VkComponents)
    (ch : Challenges) :
    isCrash (verify_plonk_constraints proof vk ch) = false := by
  unfold verify_plonk_constraints
  split
  · rfl
  · split
    · rfl
    · split
      · rfl
      · split
        · rfl
        · apply isCrash_bind _ _ (isCrash_verify_permutation_argument proof vk ch)
          intro u
          exact isCrash_verify_tx_privacy_gates proof vk ch

theorem isCrash_compute_instance_commitments (params : ParamsT)
    (pubs : List (List Fp)) :
    isCrash (compute_instance_commitments params pubs) = false := by
  show isCrash (instCommitLoop params (2 ^ params.k) pubs) = false
  induction pubs with
  | nil => rfl
  | cons col rest ih =>
    simp only [instCommitLoop]
    apply isCrash_bind
    · unfold compute_commitment
      dsimp only
      split <;> rfl
    · intro c
      apply isCrash_bind _ _ ih
      intro cs
      rfl

theorem isCrash_verify_ipa_openings (H : HashSpec) (params : ParamsT)
    (proof : Proof) (instances : List Pt) :
    isCrash (verify_ipa_openings H params proof instances) = false := rfl

/-- C9: the verifier, as a total function over arbitrary byte buffers and
public inputs, never reaches a Rust panic: every `Vec` index is guarded (the
`crash` outcome of the panic-modelling embedding is unreachable), every
decode path returns `Ok`/`Err`, and the inversion of a folding challenge
falls back to `1` on a zero challenge instead of unwrapping a `None`. -/
theorem claim9_no_crash :
    ∀ (H : HashSpec) (vk : VkComponents) (params : ParamsT)
      (proof_bytes : List Nat) (public_inputs : List (List Fp)),
      isCrash (verify_proof_nostd H vk params proof_bytes public_inputs) = false
      ∧ Fp.invert 0 = none ∧ (Fp.invert 0).getD 1 = 1 := by
  intro H vk params bytes pubs
  refine ⟨?_, by decide, by decide⟩
  unfold verify_proof_nostd
  split
  · rfl
  · split
    · rfl
    · apply isCrash_bind _ _ (isCrash_parse_proof H bytes vk)
      intro a
      rcases a with ⟨proof, t0⟩
      dsimp only
      rcases hg : generate_challenges H (Transcript.new H bytes) proof with ⟨ch, t2⟩
      apply isCrash_bind _ _ (isCrash_verify_plonk_constraints proof vk ch)
      intro u
      apply isCrash_bind _ _ (isCrash_compute_instance_commitments params pubs)
      intro insts
      exact isCrash_bind _ _ rfl (fun u2 => rfl)

/-! ### C6: the proof wire layout -/

inductive FKind
  | point
  | scalar
deriving DecidableEq

inductive FVal
  | pt (p : Pt)
  | sc (s : Fp)
deriving DecidableEq

def insufficientMsg : FKind → String
  | .point => "Insufficient proof data for point"
  | .scalar => "Insufficient proof data for scalar"

def invalidMsg : FKind → String
  | .point => "Invalid point encoding"
  | .scalar => "Invalid scalar encoding"

def decodeField : FKind → List Nat → Option FVal
  | .point, chunk => (decodePoint chunk).map FVal.pt
  | .scalar, chunk => (decodeScalar chunk).map FVal.sc

/-- The claim's reading discipline, positionally: fields are consumed in
list order, 32 bytes each; fewer than 32 remaining bytes fail with the
insufficient-data error of the expected field, an undecodable chunk with its
invalid-encoding error. -/
def runLayout (bytes : List Nat) : List FKind → Nat → Except VError (List FVal × Nat)
  | [], pos => .ok ([], pos)
  | k :: ks, pos =>
    if pos + 32 > bytes.length then .error (.err (insufficientMsg k))
    else
      match decodeField k ((bytes.drop pos).take 32) with
      | none => .error (.err (invalidMsg k))
      | some v =>
        match runLayout bytes ks (pos + 32) with
        | .ok (vs, e) => .ok (v :: vs, e)
        | .error er => .error er

/-- The claim's field order for a given VK: `num_advice_columns` points, 1
point, 3 quotient points, `num_advice_columns` + `num_fixed_columns` +
`permutation_columns.length` scalars, 2 scalars, 1 point + 1 scalar, and
`k` pairs of points. -/
def specLayout (vk : VkComponents) : List FKind :=
  List.replicate vk.num_advice_columns FKind.point
    ++ ([FKind.point]
    ++ (List.replicate 3 FKind.point
    ++ (List.replicate vk.num_advice_columns FKind.scalar
    ++ (List.replicate vk.num_fixed_columns FKind.scalar
    ++ (List.replicate vk.permutation_columns.length FKind.scalar
    ++ ([FKind.scalar]
    ++ ([FKind.scalar]
    ++ ([FKind.point]
    ++ ([FKind.scalar]
    ++ (List.replicate vk.k [FKind.point, FKind.point]).flatten)))))))))

/-- A parsed proof, flattened back into its wire order. -/
def flattenProof (p : Proof) : List FVal :=
  p.advice_commitments.map FVal.pt
    ++ [FVal.pt p.permutation_product_commitment]
    ++ p.quotient_commitment.map FVal.pt
    ++ p.advice_evals.map FVal.sc
    ++ p.fixed_evals.map FVal.sc
    ++ p.permutation_evals.map FVal.sc
    ++ [FVal.sc p.permutation_product_eval, FVal.sc p.permutation_product_next_eval,
        FVal.pt p.ipa_proof.s_poly_commitment, FVal.sc p.ipa_proof.eval_value]
    ++ (p.ipa_proof.rounds.map (fun lr => [FVal.pt lr.1, FVal.pt lr.2])).flatten

theorem runLayout_append (bytes : List Nat) (ks1 ks2 : List FKind) :
    ∀ pos, runLayout bytes (ks1 ++ ks2) pos =
      match runLayout bytes ks1 pos with
      | .ok (vs, e) =>
        match runLayout bytes ks2 e with
        | .ok (vs2, e2) => .ok (vs ++ vs2, e2)
        | .error er => .error er
      | .error er => .error er := by
  induction ks1 with
  | nil =>
    intro pos
    simp only [List.nil_append, runLayout]
    cases h : runLayout bytes ks2 pos with
    | error er => rfl
    | ok ve => rcases ve with ⟨vs, e⟩; simp
  | cons k ks ih =>
    intro pos
    simp only [List.cons_append, runLayout, List.append_eq]
    by_cases hg : pos + 32 > bytes.length
    · simp [hg]
    · simp only [hg, if_false]
      cases hd : decodeField k ((bytes.drop pos).take 32) with
      | none => rfl
      | some v =>
        dsimp only
        rw [ih (pos + 32)]
        cases h1 : runLayout bytes ks (pos + 32) with
        | error er => rfl
        | ok ve =>
          rcases ve with ⟨vs, e⟩
          dsimp only
          cases h2 : runLayout bytes ks2 e with
          | error er => rfl
          | ok ve2 => rcases ve2 with ⟨vs2, e2⟩; simp

theorem read_point_run1 (H : HashSpec) (t : Transcript H.St) (bytes : List Nat)
    (pos : Nat) (hB : t.proofData = bytes) (hP : t.position = pos) :
    (runLayout bytes [FKind.point] pos
      = (Transcript.read_point H t).map (fun x => ([FVal.pt x.1], x.2.position)))
    ∧ (∀ p t2, Transcript.read_point H t = .ok (p, t2) →
        t2.proofData = bytes ∧ t2.position = pos + 32) := by
  subst hB
  subst hP
  constructor
  · unfold runLayout Transcript.read_point
    by_cases hg : t.position + 32 > t.proofData.length
    · simp [hg, insufficientMsg, emap_error]
    · simp only [hg, if_false, decodeField]
      cases hd : decodePoint ((t.proofData.drop t.position).take 32) with
      | none => simp [hd, invalidMsg, emap_error]
      | some p => simp [hd, runLayout, Transcript.absorb_point, emap_ok]
  · intro p t2 h
    unfold Transcript.read_point at h
    split at h
    · exact Except.noConfusion h
    · dsimp only at h
      split at h
      · exact Except.noConfusion h
      · cases h
        exact ⟨rfl, rfl⟩

theorem read_scalar_run1 (H : HashSpec) (t : Transcript H.St) (bytes : List Nat)
    (pos : Nat) (hB : t.proofData = bytes) (hP : t.position = pos) :
    (runLayout bytes [FKind.scalar] pos
      = (Transcript.read_scalar H t).map (fun x => ([FVal.sc x.1], x.2.position)))
    ∧ (∀ v t2, Transcript.read_scalar H t = .ok (v, t2) →
        t2.proofData = bytes ∧ t2.position = pos + 32) := by
  subst hB
  subst hP
  constructor
  · unfold runLayout Transcript.read_scalar
    by_cases hg : t.position + 32 > t.proofData.length
    · simp [hg, insufficientMsg, emap_error]
    · simp only [hg, if_false, decodeField]
      cases hd : decodeScalar ((t.proofData.drop t.position).take 32) with
      | none => simp [hd, invalidMsg, emap_error]
      | some v => simp [hd, runLayout, Transcript.absorb_scalar, emap_ok]
  · intro v t2 h
    unfold Transcript.read_scalar at h
    split at h
    · exact Except.noConfusion h
    · dsimp only at h
      split at h
      · exact Except.noConfusion h
      · cases h
        exact ⟨rfl, rfl⟩

theorem readPoints_run (H : HashSpec) (n : Nat) :
    ∀ (t : Transcript H.St) (bytes : List Nat) (pos : Nat),
      t.proofData = bytes → t.position = pos →
      (runLayout bytes (List.replicate n FKind.point) pos
        = (readPoints H n t).map (fun x => (x.1.map FVal.pt, x.2.position)))
      ∧ (∀ ps t2, readPoints H n t = .ok (ps, t2) → t2.proofData = bytes) := by
  induction n with
  | zero =>
    intro t bytes pos hB hP
    subst hB
    subst hP
    exact ⟨rfl, fun ps t2 h => by cases h; rfl⟩
  | succ n ih =>
    intro t bytes pos hB hP
    subst hB
    subst hP
    rcases read_point_run1 H t t.proofData t.position rfl rfl with ⟨e1, pres1⟩
    constructor
    · rw [show List.replicate (n + 1) FKind.point
          = [FKind.point] ++ List.replicate n FKind.point from rfl,
        runLayout_append, e1]
      cases hrp : Transcript.read_point H t with
      | error er => simp [readPoints, hrp, emap_error, error_bind]
      | ok x =>
        rcases x with ⟨p, t1⟩
        obtain ⟨hB1, hP1⟩ := pres1 p t1 hrp
        rcases ih t1 t.proofData t1.position hB1 rfl with ⟨e2, pres2⟩
        simp only [emap_ok]
        rw [e2]
        cases hrest : readPoints H n t1 with
        | error er => simp [readPoints, hrp, hrest, emap_error, error_bind, ok_bind]
        | ok y =>
          rcases y with ⟨ps, t2⟩
          simp [readPoints, hrp, hrest, emap_ok, ok_bind]
    · intro ps t2 h
      simp only [readPoints] at h
      cases hrp : Transcript.read_point H t with
      | error er => rw [hrp, error_bind] at h; exact Except.noConfusion h
      | ok x =>
        rcases x with ⟨p, t1⟩
        rw [hrp, ok_bind] at h
        obtain ⟨hB1, _⟩ := pres1 p t1 hrp
        cases hrest : readPoints H n t1 with
        | error er =>
          rw [hrest, error_bind] at h
          exact Except.noConfusion h
        | ok y =>
          rcases y with ⟨ps1, t3⟩
          rw [hrest, ok_bind] at h
          cases h
          exact (ih t1 t.proofData t1.position hB1 rfl).2 ps1 t3 hrest

theorem readScalars_run (H : HashSpec) (n : Nat) :
    ∀ (t : Transcript H.St) (bytes : List Nat) (pos : Nat),
      t.proofData = bytes → t.position = pos →
      (runLayout bytes (List.replicate n FKind.scalar) pos
        = (readScalars H n t).map (fun x => (x.1.map FVal.sc, x.2.position)))
      ∧ (∀ ss t2, readScalars H n t = .ok (ss, t2) → t2.proofData = bytes) := by
  induction n with
  | zero =>
    intro t bytes pos hB hP
    subst hB
    subst hP
    exact ⟨rfl, fun ss t2 h => by cases h; rfl⟩
  | succ n ih =>
    intro t bytes pos hB hP
    subst hB
    subst hP
    rcases read_scalar_run1 H t t.proofData t.position rfl rfl with ⟨e1, pres1⟩
    constructor
    · rw [show List.replicate (n + 1) FKind.scalar
          = [FKind.scalar] ++ List.replicate n FKind.scalar from rfl,
        runLayout_append, e1]
      cases hrp : Transcript.read_scalar H t with
      | error er => simp [readScalars, hrp, emap_error, error_bind]
      | ok x =>
        rcases x with ⟨v, t1⟩
        obtain ⟨hB1, hP1⟩ := pres1 v t1 hrp
        rcases ih t1 t.proofData t1.position hB1 rfl with ⟨e2, pres2⟩
        simp only [emap_ok]
        rw [e2]
        cases hrest : readScalars H n t1 with
        | error er => simp [readScalars, hrp, hrest, emap_error, error_bind, ok_bind]
        | ok y =>
          rcases y with ⟨ss, t2⟩
          simp [readScalars, hrp, hrest, emap_ok, ok_bind]
    · intro ss t2 h
      simp only [readScalars] at h
      cases hrp : Transcript.read_scalar H t with
      | error er => rw [hrp, error_bind] at h; exact Except.noConfusion h
      | ok x =>
        rcases x with ⟨v, t1⟩
        rw [hrp, ok_bind] at h
        obtain ⟨hB1, _⟩ := pres1 v t1 hrp
        cases hrest : readScalars H n t1 with
        | error er =>
          rw [hrest, error_bind] at h
          exact Except.noConfusion h
        | ok y =>
          rcases y with ⟨ss1, t3⟩
          rw [hrest, ok_bind] at h
          cases h
          exact (ih t1 t.proofData t1.position hB1 rfl).2 ss1 t3 hrest

theorem readRounds_run (H : HashSpec) (n : Nat) :
    ∀ (t : Transcript H.St) (bytes : List Nat) (pos : Nat),
      t.proofData = bytes → t.position = pos →
      (runLayout bytes ((List.replicate n [FKind.point, FKind.point]).flatten) pos
        = (readRounds H n t).map (fun x =>
            ((x.1.map (fun lr => [FVal.pt lr.1, FVal.pt lr.2])).flatten, x.2.position)))
      ∧ (∀ rs t2, readRounds H n t = .ok (rs, t2) → t2.proofData = bytes) := by
  induction n with
  | zero =>
    intro t bytes pos hB hP
    subst hB
    subst hP
    exact ⟨rfl, fun rs t2 h => by cases h; rfl⟩
  | succ n ih =>
    intro t bytes pos hB hP
    subst hB
    subst hP
    rcases read_point_run1 H t t.proofData t.position rfl rfl with ⟨e1, pres1⟩
    constructor
    · rw [show (List.replicate (n + 1) [FKind.point, FKind.point]).flatten
          = [FKind.point] ++ ([FKind.point]
              ++ (List.replicate n [FKind.point, FKind.point]).flatten) from rfl,
        runLayout_append, e1]
      cases hrp : Transcript.read_point H t with
      | error er => simp [readRounds, hrp, emap_error, error_bind]
      | ok x =>
        rcases x with ⟨l, t1⟩
        obtain ⟨hB1, hP1⟩ := pres1 l t1 hrp
        rcases read_point_run1 H t1 t.proofData t1.position hB1 rfl with ⟨e2, pres2⟩
        simp only [emap_ok]
        rw [runLayout_append, e2]
        cases hrp2 : Transcript.read_point H t1 with
        | error er => simp [readRounds, hrp, hrp2, emap_error, error_bind, ok_bind]
        | ok x2 =>
          rcases x2 with ⟨r, t2⟩
          obtain ⟨hB2, hP2⟩ := pres2 r t2 hrp2
          rcases ih t2 t.proofData t2.position hB2 rfl with ⟨e3, pres3⟩
          simp only [emap_ok]
          rw [e3]
          cases hrest : readRounds H n t2 with
          | error er =>
            simp [readRounds, hrp, hrp2, hrest, emap_error, error_bind, ok_bind]
          | ok y =>
            rcases y with ⟨rs, t3⟩
            simp [readRounds, hrp, hrp2, hrest, emap_ok, ok_bind]
    · intro rs t2 h
      simp only [readRounds] at h
      cases hrp : Transcript.read_point H t with
      | error er => rw [hrp, error_bind] at h; exact Except.noConfusion h
      | ok x =>
        rcases x with ⟨l, t1⟩
        rw [hrp, ok_bind] at h
        obtain ⟨hB1, _⟩ := pres1 l t1 hrp
        cases hrp2 : Transcript.read_point H t1 with
        | error er => rw [hrp2, error_bind] at h; exact Except.noConfusion h
        | ok x2 =>
          rcases x2 with ⟨r, t3⟩
          rw [hrp2, ok_bind] at h
          obtain ⟨hB2, _⟩ :=
            (read_point_run1 H t1 t.proofData t1.position hB1 rfl).2 r t3 hrp2
          cases hrest : readRounds H n t3 with
          | error er =>
            rw [hrest, error_bind] at h
            exact Except.noConfusion h
          | ok y =>
            rcases y with ⟨rs1, t4⟩
            rw [hrest, ok_bind] at h
            cases h
            exact (ih t3 t.proofData t3.position hB2 rfl).2 rs1 t4 hrest

/-- C6: `parse_proof` is exactly the positional reading of the claim's field
layout: the decoded fields, in wire order, and the final cursor coincide with
`runLayout` over `specLayout`, which by definition consumes 32 bytes per
field in the claimed order, fails with the insufficient-data error of the
expected field when fewer than 32 bytes remain, and with the
invalid-encoding error when a chunk does not decode. -/
theorem claim6_parse_layout_and_errors :
    ∀ (H : HashSpec) (vk : VkComponents) (bytes : List Nat),
      (parse_proof H bytes vk).map (fun x => (flattenProof x.1, x.2.position))
        = runLayout bytes (specLayout vk) 0 := by
  intro H vk bytes
  unfold parse_proof specLayout
  rcases readPoints_run H vk.num_advice_columns (Transcript.new H bytes) bytes 0 rfl rfl
    with ⟨e1, p1⟩
  rw [runLayout_append, e1]
  cases h1 : readPoints H vk.num_advice_columns (Transcript.new H bytes) with
  | error er => simp [h1, emap_error, error_bind]
  | ok x1 =>
  rcases x1 with ⟨ac, t1⟩
  simp only [h1, emap_ok, ok_bind]
  rcases read_point_run1 H t1 bytes t1.position (p1 ac t1 h1) rfl with ⟨e2, p2⟩
  rw [runLayout_append, e2]
  cases h2 : Transcript.read_point H t1 with
  | error er => simp [h2, emap_error, error_bind]
  | ok x2 =>
  rcases x2 with ⟨ppc, t2⟩
  simp only [h2, emap_ok, ok_bind]
  rcases readPoints_run H 3 t2 bytes t2.position (p2 ppc t2 h2).1 rfl with ⟨e3, p3⟩
  rw [runLayout_append, e3]
  cases h3 : readPoints H 3 t2 with
  | error er => simp [h3, emap_error, error_bind]
  | ok x3 =>
  rcases x3 with ⟨qc, t3⟩
  simp only [h3, emap_ok, ok_bind]
  rcases readScalars_run H vk.num_advice_columns t3 bytes t3.position (p3 qc t3 h3) rfl
    with ⟨e4, p4⟩
  rw [runLayout_append, e4]
  cases h4 : readScalars H vk.num_advice_columns t3 with
  | error er => simp [h4, emap_error, error_bind]
  | ok x4 =>
  rcases x4 with ⟨ae, t4⟩
  simp only [h4, emap_ok, ok_bind]
  rcases readScalars_run H vk.num_fixed_columns t4 bytes t4.position (p4 ae t4 h4) rfl
    with ⟨e5, p5⟩
  rw [runLayout_append, e5]
  cases h5 : readScalars H vk.num_fixed_columns t4 with
  | error er => simp [h5, emap_error, error_bind]
  | ok x5 =>
  rcases x5 with ⟨fe, t5⟩
  simp only [h5, emap_ok, ok_bind]
  rcases readScalars_run H vk.permutation_columns.length t5 bytes t5.position
    (p5 fe t5 h5) rfl with ⟨e6, p6⟩
  rw [runLayout_append, e6]
  cases h6 : readScalars H vk.permutation_columns.length t5 with
  | error er => simp [h6, emap_error, error_bind]
  | ok x6 =>
  rcases x6 with ⟨pe, t6⟩
  simp only [h6, emap_ok, ok_bind]
  rcases read_scalar_run1 H t6 bytes t6.position (p6 pe t6 h6) rfl with ⟨e7, p7⟩
  rw [runLayout_append, e7]
  cases h7 : Transcript.read_scalar H t6 with
  | error er => simp [h7, emap_error, error_bind]
  | ok x7 =>
  rcases x7 with ⟨zpe, t7⟩
  simp only [h7, emap_ok, ok_bind]
  rcases read_scalar_run1 H t7 bytes t7.position (p7 zpe t7 h7).1 rfl with ⟨e8, p8⟩
  rw [runLayout_append, e8]
  cases h8 : Transcript.read_scalar H t7 with
  | error er => simp [h8, emap_error, error_bind]
  | ok x8 =>
  rcases x8 with ⟨zne, t8⟩
  simp only [h8, emap_ok, ok_bind]
  rcases read_point_run1 H t8 bytes t8.position (p8 zne t8 h8).1 rfl with ⟨e9, p9⟩
  rw [runLayout_append, e9]
  cases h9 : Transcript.read_point H t8 with
  | error er => simp [h9, emap_error, error_bind]
  | ok x9 =>
  rcases x9 with ⟨spc, t9⟩
  simp only [h9, emap_ok, ok_bind]
  rcases read_scalar_run1 H t9 bytes t9.position (p9 spc t9 h9).1 rfl with ⟨e10, p10⟩
  rw [runLayout_append, e10]
  cases h10 : Transcript.read_scalar H t9 with
  | error er => simp [h10, emap_error, error_bind]
  | ok x10 =>
  rcases x10 with ⟨ev, t10⟩
  simp only [h10, emap_ok, ok_bind]
  rcases readRounds_run H vk.k t10 bytes t10.position (p10 ev t10 h10).1 rfl
    with ⟨e11, p11⟩
  rw [e11]
  cases h11 : readRounds H vk.k t10 with
  | error er => simp [h11, emap_error, error_bind]
  | ok x11 =>
  rcases x11 with ⟨rs, t11⟩
  simp [h11, emap_ok, ok_bind, flattenProof, List.append_assoc]

/-! ### C10: trailing bytes are never read -/

theorem read_point_append (H : HashSpec) (t : Transcript H.St) (S : List Nat)
    (p : Pt) (t2 : Transcript H.St)
    (h : Transcript.read_point H t = .ok (p, t2)) :
    Transcript.read_point H { t with proofData := t.proofData ++ S }
      = .ok (p, { t2 with proofData := t2.proofData ++ S }) := by
  unfold Transcript.read_point at h ⊢
  by_cases hg : t.position + 32 > t.proofData.length
  · rw [if_pos hg] at h
    exact Except.noConfusion h
  · rw [if_neg hg] at h
    have hle := Nat.le_of_not_lt hg
    rw [if_neg (show ¬ (t.position + 32 > (t.proofData ++ S).length) by
      simp [List.length_append]; omega)]
    have hchunk : (((t.proofData ++ S).drop t.position).take 32)
        = ((t.proofData.drop t.position).take 32) := by
      rw [List.drop_append_of_le_length (by omega),
        List.take_append_of_le_length (by simp [List.length_drop]; omega)]
    dsimp only at h ⊢
    rw [hchunk]
    cases hd : decodePoint ((t.proofData.drop t.position).take 32) with
    | none => rw [hd] at h; exact Except.noConfusion h
    | some q =>
      rw [hd] at h
      cases h
      rfl

theorem read_scalar_append (H : HashSpec) (t : Transcript H.St) (S : List Nat)
    (v : Fp) (t2 : Transcript H.St)
    (h : Transcript.read_scalar H t = .ok (v, t2)) :
    Transcript.read_scalar H { t with proofData := t.proofData ++ S }
      = .ok (v, { t2 with proofData := t2.proofData ++ S }) := by
  unfold Transcript.read_scalar at h ⊢
  by_cases hg : t.position + 32 > t.proofData.length
  · rw [if_pos hg] at h
    exact Except.noConfusion h
  · rw [if_neg hg] at h
    have hle := Nat.le_of_not_lt hg
    rw [if_neg (show ¬ (t.position + 32 > (t.proofData ++ S).length) by
      simp [List.length_append]; omega)]
    have hchunk : (((t.proofData ++ S).drop t.position).take 32)
        = ((t.proofData.drop t.position).take 32) := by
      rw [List.drop_append_of_le_length (by omega),
        List.take_append_of_le_length (by simp [List.length_drop]; omega)]
    dsimp only at h ⊢
    rw [hchunk]
    cases hd : decodeScalar ((t.proofData.drop t.position).take 32) with
    | none => rw [hd] at h; exact Except.noConfusion h
    | some q =>
      rw [hd] at h
      cases h
      rfl

theorem readPoints_append (H : HashSpec) (n : Nat) (S : List Nat) :
    ∀ (t : Transcript H.St) (ps : List Pt) (t2 : Transcript H.St),
      readPoints H n t = .ok (ps, t2) →
      readPoints H n { t with proofData := t.proofData ++ S }
        = .ok (ps, { t2 with proofData := t2.proofData ++ S }) := by
  induction n with
  | zero =>
    intro t ps t2 h
    cases h
    rfl
  | succ n ih =>
    intro t ps t2 h
    simp only [readPoints] at h ⊢
    cases hrp : Transcript.read_point H t with
    | error er => rw [hrp, error_bind] at h; exact Except.noConfusion h
    | ok x =>
      rcases x with ⟨p, t1⟩
      rw [hrp, ok_bind] at h
      rw [read_point_append H t S p t1 hrp, ok_bind]
      cases hrest : readPoints H n t1 with
      | error er => rw [hrest, error_bind] at h; exact Except.noConfusion h
      | ok y =>
        rcases y with ⟨ps1, t3⟩
        rw [hrest, ok_bind] at h
        cases h
        rw [ih t1 ps1 t3 hrest, ok_bind]

theorem readScalars_append (H : HashSpec) (n : Nat) (S : List Nat) :
    ∀ (t : Transcript H.St) (ss : List Fp) (t2 : Transcript H.St),
      readScalars H n t = .ok (ss, t2) →
      readScalars H n { t with proofData := t.proofData ++ S }
        = .ok (ss, { t2 with proofData := t2.proofData ++ S }) := by
  induction n with
  | zero =>
    intro t ss t2 h
    cases h
    rfl
  | succ n ih =>
    intro t ss t2 h
    simp only [readScalars] at h ⊢
    cases hrp : Transcript.read_scalar H t with
    | error er => rw [hrp, error_bind] at h; exact Except.noConfusion h
    | ok x =>
      rcases x with ⟨v, t1⟩
      rw [hrp, ok_bind] at h
      rw [read_scalar_append H t S v t1 hrp, ok_bind]
      cases hrest : readScalars H n t1 with
      | error er => rw [hrest, error_bind] at h; exact Except.noConfusion h
      | ok y =>
        rcases y with ⟨ss1, t3⟩
        rw [hrest, ok_bind] at h
        cases h
        rw [ih t1 ss1 t3 hrest, ok_bind]

theorem readRounds_append (H : HashSpec) (n : Nat) (S : List Nat) :
    ∀ (t : Transcript H.St) (rs : List (Pt × Pt)) (t2 : Transcript H.St),
      readRounds H n t = .ok (rs, t2) →
      readRounds H n { t with proofData := t.proofData ++ S }
        = .ok (rs, { t2 with proofData := t2.proofData ++ S }) := by
  induction n with
  | zero =>
    intro t rs t2 h
    cases h
    rfl
  | succ n ih =>
    intro t rs t2 h
    simp only [readRounds] at h ⊢
    cases hrp : Transcript.read_point H t with
    | error er => rw [hrp, error_bind] at h; exact Except.noConfusion h
    | ok x =>
      rcases x with ⟨l, t1⟩
      rw [hrp, ok_bind] at h
      rw [read_point_append H t S l t1 hrp, ok_bind]
      cases hrp2 : Transcript.read_point H t1 with
      | error er => rw [hrp2, error_bind] at h; exact Except.noConfusion h
      | ok x2 =>
        rcases x2 with ⟨r, t3⟩
        rw [hrp2, ok_bind] at h
        rw [read_point_append H t1 S r t3 hrp2, ok_bind]
        cases hrest : readRounds H n t3 with
        | error er => rw [hrest, error_bind] at h; exact Except.noConfusion h
        | ok y =>
          rcases y with ⟨rs1, t4⟩
          rw [hrest, ok_bind] at h
          cases h
          rw [ih t3 rs1 t4 hrest, ok_bind]

theorem parse_append (H : HashSpec) (vk : VkComponents) (B S : List Nat)
    (proof : Proof) (t : Transcript H.St)
    (h : parse_proof H B vk = .ok (proof, t)) :
    parse_proof H (B ++ S) vk = .ok (proof, { t with proofData := t.proofData ++ S }) := by
  unfold parse_proof at h ⊢
  dsimp only at h ⊢
  rw [show Transcript.new H (B ++ S)
      = { Transcript.new H B with
          proofData := (Transcript.new H B).proofData ++ S } from rfl]
  cases h1 : readPoints H vk.num_advice_columns (Transcript.new H B) with
  | error er => rw [h1, error_bind] at h; exact Except.noConfusion h
  | ok x1 =>
  rcases x1 with ⟨ac, t1⟩
  rw [h1, ok_bind] at h
  dsimp only at h
  rw [readPoints_append H vk.num_advice_columns S _ ac t1 h1, ok_bind]
  dsimp only
  cases h2 : Transcript.read_point H t1 with
  | error er => rw [h2, error_bind] at h; exact Except.noConfusion h
  | ok x2 =>
  rcases x2 with ⟨ppc, t2⟩
  rw [h2, ok_bind] at h
  dsimp only at h
  rw [read_point_append H t1 S ppc t2 h2, ok_bind]
  dsimp only
  cases h3 : readPoints H 3 t2 with
  | error er => rw [h3, error_bind] at h; exact Except.noConfusion h
  | ok x3 =>
  rcases x3 with ⟨qc, t3⟩
  rw [h3, ok_bind] at h
  dsimp only at h
  rw [readPoints_append H 3 S _ qc t3 h3, ok_bind]
  dsimp only
  cases h4 : readScalars H vk.num_advice_columns t3 with
  | error er => rw [h4, error_bind] at h; exact Except.noConfusion h
  | ok x4 =>
  rcases x4 with ⟨ae, t4⟩
  rw [h4, ok_bind] at h
  dsimp only at h
  rw [readScalars_append H vk.num_advice_columns S _ ae t4 h4, ok_bind]
  dsimp only
  cases h5 : readScalars H vk.num_fixed_columns t4 with
  | error er => rw [h5, error_bind] at h; exact Except.noConfusion h
  | ok x5 =>
  rcases x5 with ⟨fe, t5⟩
  rw [h5, ok_bind] at h
  dsimp only at h
  rw [readScalars_append H vk.num_fixed_columns S _ fe t5 h5, ok_bind]
  dsimp only
  cases h6 : readScalars H vk.permutation_columns.length t5 with
  | error er => rw [h6, error_bind] at h; exact Except.noConfusion h
  | ok x6 =>
  rcases x6 with ⟨pe, t6⟩
  rw [h6, ok_bind] at h
  dsimp only at h
  rw [readScalars_append H vk.permutation_columns.length S _ pe t6 h6, ok_bind]
  dsimp only
  cases h7 : Transcript.read_scalar H t6 with
  | error er => rw [h7, error_bind] at h; exact Except.noConfusion h
  | ok x7 =>
  rcases x7 with ⟨zpe, t7⟩
  rw [h7, ok_bind] at h
  dsimp only at h
  rw [read_scalar_append H t6 S zpe t7 h7, ok_bind]
  dsimp only
  cases h8 : Transcript.read_scalar H t7 with
  | error er => rw [h8, error_bind] at h; exact Except.noConfusion h
  | ok x8 =>
  rcases x8 with ⟨zne, t8⟩
  rw [h8, ok_bind] at h
  dsimp only at h
  rw [read_scalar_append H t7 S zne t8 h8, ok_bind]
  dsimp only
  cases h9 : Transcript.read_point H t8 with
  | error er => rw [h9, error_bind] at h; exact Except.noConfusion h
  | ok x9 =>
  rcases x9 with ⟨spc, t9⟩
  rw [h9, ok_bind] at h
  dsimp only at h
  rw [read_point_append H t8 S spc t9 h9, ok_bind]
  dsimp only
  cases h10 : Transcript.read_scalar H t9 with
  | error er => rw [h10, error_bind] at h; exact Except.noConfusion h
  | ok x10 =>
  rcases x10 with ⟨ev, t10⟩
  rw [h10, ok_bind] at h
  dsimp only at h
  rw [read_scalar_append H t9 S ev t10 h10, ok_bind]
  dsimp only
  cases h11 : readRounds H vk.k t10 with
  | error er => rw [h11, error_bind] at h; exact Except.noConfusion h
  | ok x11 =>
  rcases x11 with ⟨rs, t11⟩
  rw [h11, ok_bind] at h
  dsimp only at h
  rw [readRounds_append H vk.k S _ rs t11 h11, ok_bind]
  dsimp only
  cases h
  rfl

theorem foldl_absorb_point_mk (H : HashSpec) (ps : List Pt) :
    ∀ (h0 : H.St) (d : List Nat) (pos : Nat),
      ps.foldl (Transcript.absorb_point H) ⟨h0, d, pos⟩
        = ⟨ps.foldl (fun hh p => H.update (H.update hh [pointTag]) (ptToBytes p)) h0,
           d, pos⟩ := by
  induction ps with
  | nil => intro h0 d pos; rfl
  | cons p ps ih =>
    intro h0 d pos
    simp only [List.foldl_cons]
    exact ih (H.update (H.update h0 [pointTag]) (ptToBytes p)) d pos

theorem foldl_absorb_scalar_mk (H : HashSpec) (ss : List Fp) :
    ∀ (h0 : H.St) (d : List Nat) (pos : Nat),
      ss.foldl (Transcript.absorb_scalar H) ⟨h0, d, pos⟩
        = ⟨ss.foldl (fun hh v => H.update (H.update hh [scalarTag]) (toLE32 v.val)) h0,
           d, pos⟩ := by
  induction ss with
  | nil => intro h0 d pos; rfl
  | cons v ss ih =>
    intro h0 d pos
    simp only [List.foldl_cons]
    exact ih (H.update (H.update h0 [scalarTag]) (toLE32 v.val)) d pos

/-- The challenge values depend only on the hasher state, never on the
transcript's proof-byte view. -/
theorem challenges_data_irrel (H : HashSpec) (h0 : H.St) (d1 d2 : List Nat)
    (p1 p2 : Nat) (proof : Proof) :
    (generate_challenges H ⟨h0, d1, p1⟩ proof).1
      = (generate_challenges H ⟨h0, d2, p2⟩ proof).1 := by
  simp only [generate_challenges, Transcript.squeeze_challenge,
    Transcript.absorb_point, Transcript.absorb_scalar, foldl_absorb_point_mk,
    foldl_absorb_scalar_mk]

theorem parse_nil_err (H : HashSpec) (vk : VkComponents) :
    isOkE (parse_proof H [] vk) = false := by
  unfold parse_proof
  cases hn : vk.num_advice_columns with
  | zero =>
    simp [hn, readPoints, Transcript.read_point, Transcript.new, error_bind,
      ok_bind, isOkE]
  | succ m =>
    simp [hn, readPoints, Transcript.read_point, Transcript.new, error_bind,
      ok_bind, isOkE]

/-- C10: bytes beyond the expected layout are never read: whenever a buffer
parses, appending any suffix leaves the verification result unchanged (the
parse consumes the same prefix, the Fiat-Shamir challenges depend only on the
absorbed parsed components, and no length-exactness check exists). -/
theorem claim10_trailing_bytes_ignored :
    ∀ (H : HashSpec) (vk : VkComponents) (params : ParamsT)
      (B S : List Nat) (pubs : List (List Fp)),
      isOkE (parse_proof H B vk) = true →
      verify_proof_nostd H vk params (B ++ S) pubs
        = verify_proof_nostd H vk params B pubs := by
  intro H vk params B S pubs hok
  cases B with
  | nil =>
    rw [parse_nil_err H vk] at hok
    exact Bool.noConfusion hok
  | cons b bs =>
    cases hp : parse_proof H (b :: bs) vk with
    | error er =>
      rw [hp] at hok
      exact Bool.noConfusion hok
    | ok x =>
      rcases x with ⟨proof, t⟩
      have hpa := parse_append H vk (b :: bs) S proof t hp
      unfold verify_proof_nostd
      rw [if_neg (show ¬ (((b :: bs) ++ S).isEmpty = true) by simp),
        if_neg (show ¬ ((b :: bs).isEmpty = true) by simp)]
      cases hpu : pubs.isEmpty with
      | true => rw [if_pos rfl, if_pos rfl]
      | false =>
        rw [if_neg (by simp), if_neg (by simp)]
        rw [hp, hpa, ok_bind, ok_bind]
        dsimp only
        have hch : (generate_challenges H (Transcript.new H ((b :: bs) ++ S)) proof).1
            = (generate_challenges H (Transcript.new H (b :: bs)) proof).1 :=
          challenges_data_irrel H H.initSt ((b :: bs) ++ S) (b :: bs) 0 0 proof
        rcases hg1 : generate_challenges H (Transcript.new H ((b :: bs) ++ S)) proof
          with ⟨ch1, u1⟩
        rcases hg2 : generate_challenges H (Transcript.new H (b :: bs)) proof
          with ⟨ch2, u2⟩
        have hcheq : ch1 = ch2 := by
          rw [hg1, hg2] at hch
          exact hch
        dsimp only
        rw [hcheq]

theorem claim10_witness :
    isOkE (parse_proof trivialHash zeroProofBytes vkTx) = true
    ∧ verify_proof_nostd trivialHash vkTx paramsK0 (zeroProofBytes ++ [7]) [[(0 : Fp)]]
        = verify_proof_nostd trivialHash vkTx paramsK0 zeroProofBytes [[(0 : Fp)]] :=
  ⟨by decide,
   claim10_trailing_bytes_ignored trivialHash vkTx paramsK0 zeroProofBytes [7]
     [[(0 : Fp)]] (by decide)⟩

end ZeroStyl
